import Mathlib

/-!
# Verification of the block-document editor core

Shallow embedding of the block document model, the editor mutation engine
(`src/stores/editorStore.js`), the pure block helpers (`src/utils/blocks.js`),
the block-type constants (`src/constants/BLOCK_TYPES.js`) and the Markdown
importer (`src/services/markdownSerializer.js`, parser part).

Modelling conventions:
* `crypto.randomUUID()` / `uuidv4()` are modelled by a monotone fresh-id
  supply threaded through the state (`nextId : Nat`); the generator's
  uniqueness guarantee becomes "every id in the state is `< nextId`".
* `new Date().toISOString()` / `Date.now()` are modelled by a `now : Nat`
  argument supplied with each command.
* JS objects holding type-specific block properties are association lists
  from field names to a sum `PVal` of the value shapes the source uses.
* The `marked` Markdown lexer is an external library (not repository code);
  `parseMarkdown` is therefore parameterised by the lexer
  `lex : String → List MdToken`, and theorems quantify over it.
-/

namespace Editor

/-- Block type enumeration, from `BLOCK_TYPES` in `src/constants/BLOCK_TYPES.js`. -/
inductive BlockType where
  | paragraph
  | heading1
  | heading2
  | heading3
  | task
  | quote
  | image
  | divider
  | link
  | section
  | gallery
  | columns
  | tabs
deriving DecidableEq, Repr

/-- A JS value stored in a block's `properties` bag.  The constructors cover the
value shapes that appear in `DEFAULT_BLOCK_PROPERTIES` and in the store:
booleans, numbers, strings, lists of numbers (`widths`), lists of strings
(`images`), tab descriptors (`tabs: [{id, label}]`), `null` and generated ids. -/
inductive PVal where
  | b (x : Bool)
  | n (x : Int)
  | s (x : String)
  | nlist (xs : List Int)
  | slist (xs : List String)
  | tabList (xs : List (Nat × String))
  | nullv
  | idv (x : Nat)
deriving DecidableEq, Repr

/-- A JS object used as a property bag: an ordered association list. -/
abbrev Props := List (String × PVal)

/-- Set key `k` to `v` in a property bag: overwrite in place if present
(keeping insertion order), else append — JS object assignment semantics. -/
def setKey (props : Props) (k : String) (v : PVal) : Props :=
  if props.any (fun p => p.1 = k) then
    props.map (fun p => if p.1 = k then (k, v) else p)
  else
    props ++ [(k, v)]

/-- `Object.assign(target, patch)` / `{...target, ...patch}` on plain objects. -/
def objAssign (target patch : Props) : Props :=
  patch.foldl (fun acc kv => setKey acc kv.1 kv.2) target

/-- `DEFAULT_BLOCK_PROPERTIES` from `src/constants/BLOCK_TYPES.js`. -/
def DEFAULT_BLOCK_PROPERTIES : BlockType → Props
  | .paragraph => []
  | .heading1 => []
  | .heading2 => []
  | .heading3 => []
  | .task => [("checked", .b false)]
  | .quote => []
  | .image => [("url", .s ""), ("alt", .s ""), ("caption", .s "")]
  | .divider => []
  | .link => [("url", .s ""), ("title", .s "")]
  | .section => [("title", .s "")]
  | .gallery => [("images", .slist []), ("aspectRatio", .s "portrait")]
  | .columns => [("count", .n 2), ("widths", .nlist [50, 50]), ("gap", .n 16)]
  | .tabs => [("tabs", .tabList []), ("activeTabId", .nullv)]

/-- `createBlockProperties` from `src/constants/BLOCK_TYPES.js`: factory that
generates the first tab id for `tabs` blocks.  `freshId` models the
`crypto.randomUUID()` call (consumed only for `tabs`). -/
def createBlockProperties (ty : BlockType) (freshId : Nat) : Props :=
  if ty = .tabs then
    setKey (setKey (DEFAULT_BLOCK_PROPERTIES .tabs) "tabs"
      (.tabList [(freshId, "Tab 1")])) "activeTabId" (.idv freshId)
  else
    DEFAULT_BLOCK_PROPERTIES ty

/-- One entry of a columns-block `children` array: `{columnIndex, blocks}`. -/
structure ColEntry where
  columnIndex : Nat
  blocks : List Nat
deriving DecidableEq, Repr

/-- The `children` field of a block.  `createBlock` gives an empty array; the
inline literals in the store leave it absent (`undef`); `addBlockToTab`
turns an absent field into an object keyed by tab id.  A JS array also
accepts keyed properties (`children[tabId] = []` on an array), which the
`extra` component of `arr` records. -/
inductive Children where
  | undef
  | arr (cols : List ColEntry) (extra : List (Nat × List Nat))
  | obj (tabs : List (Nat × List Nat))
deriving DecidableEq, Repr

/-- A block, as built by `createBlock` in `src/utils/blocks.js` and by the
inline literals in `src/stores/editorStore.js`.  Fields that some literals
omit are `Option`s / have an `undef` default. -/
structure Block where
  id : Nat
  type : BlockType
  content : String
  properties : Props
  children : Children := .undef
  columnIndex : Option Nat := none
  parentTabId : Option Nat := none
  createdAt : Option Nat := none
deriving DecidableEq, Repr

/-- A document, as built by `createDocument` in `src/utils/blocks.js`. -/
structure Document where
  id : Nat
  title : String
  icon : String := "document"
  groupId : Option Nat := none
  blocks : List Block
  createdAt : Nat
  updatedAt : Nat
deriving DecidableEq, Repr

/-- `createBlock(type, content)` from `src/utils/blocks.js`:
fresh id, default properties, empty children array, creation timestamp. -/
def createBlock (freshId : Nat) (ty : BlockType) (content : String) (now : Nat) : Block :=
  { id := freshId
    type := ty
    content := content
    properties := DEFAULT_BLOCK_PROPERTIES ty
    children := .arr [] []
    createdAt := some now }

/-- `createDocument(title)` from `src/utils/blocks.js`: one empty paragraph. -/
def createDocument (docId blkId : Nat) (title : String) (now : Nat) : Document :=
  { id := docId
    title := title
    blocks := [createBlock blkId .paragraph "" now]
    createdAt := now
    updatedAt := now }

/-- `findBlockIndex(blocks, blockId)` from `src/utils/blocks.js`
(`Array.prototype.findIndex`; `none` models the `-1` sentinel). -/
def findBlockIndex (blocks : List Block) (blockId : Nat) : Option Nat :=
  blocks.findIdx? (fun b => b.id = blockId)

/-- `String.prototype.slice(0, n)` for a non-negative index. -/
def strTake (s : String) (n : Nat) : String :=
  ⟨s.data.take n⟩

/-- `String.prototype.slice(n)` for a non-negative index. -/
def strDrop (s : String) (n : Nat) : String :=
  ⟨s.data.drop n⟩

/-- `splitBlockAtCursor(block, cursorPosition)` from `src/utils/blocks.js`:
the before-block keeps everything but truncates the content; the
after-block is a **new paragraph** created by `createBlock`. -/
def splitBlockAtCursor (block : Block) (cursorPosition : Nat) (freshId now : Nat) :
    Block × Block :=
  ({ block with content := strTake block.content cursorPosition },
   createBlock freshId .paragraph (strDrop block.content cursorPosition) now)

/-- `mergeBlocks(blockA, blockB)` from `src/utils/blocks.js`:
`{...blockA, content: blockA.content + blockB.content}`. -/
def mergeBlocks (blockA blockB : Block) : Block :=
  { blockA with content := blockA.content ++ blockB.content }

/-- `Array.prototype.splice(i, 0, a)`: insert at position `i`
(clamped to the array length, as in JS). -/
def spliceInsert (l : List α) (i : Nat) (a : α) : List α :=
  l.take i ++ a :: l.drop i

/-- `Array.prototype.splice(i, 0, ...as)`: insert a list at position `i`. -/
def spliceInsertAll (l : List α) (i : Nat) (as : List α) : List α :=
  l.take i ++ as ++ l.drop i

/-- `Array.prototype.splice(i, 1)`: remove the element at position `i`. -/
def spliceRemove (l : List α) (i : Nat) : List α :=
  l.take i ++ l.drop (i + 1)

/-- `Array.prototype.find` followed by an in-place mutation of the found
element: rewrite the first element satisfying `p` with `f`. -/
def updateFirst (p : α → Bool) (f : α → α) : List α → List α
  | [] => []
  | a :: as => if p a then f a :: as else a :: updateFirst p f as

/-- An undo/redo history entry, from `saveToHistory` in
`src/stores/editorStore.js`: deep-cloned blocks, active id and a timestamp. -/
structure Snapshot where
  blocks : List Block
  activeBlockId : Option Nat
  timestamp : Nat
deriving DecidableEq, Repr

/-- The `past`/`future` stacks of the store. -/
structure History where
  past : List Snapshot
  future : List Snapshot
deriving DecidableEq, Repr

/-- The store state from `src/stores/editorStore.js` (document, active block,
Ctrl+A selection state and history), together with the fresh-id supply
`nextId` that models `crypto.randomUUID()`. -/
structure EditorState where
  document : Document
  activeBlockId : Option Nat
  selectionLevel : Nat
  selectedBlockIds : List Nat
  history : History
  nextId : Nat
deriving DecidableEq, Repr

/-- `maxHistorySize` from the store. -/
def maxHistorySize : Nat := 50

/-- The initial store state: `document: createDocument("Untitled")`,
`activeBlockId: null`, no selection, empty history.  Document id and the
first block id are drawn from the fresh-id supply starting at 0. -/
def initState (now : Nat) : EditorState :=
  { document := createDocument 0 1 "Untitled" now
    activeBlockId := none
    selectionLevel := 0
    selectedBlockIds := []
    history := { past := [], future := [] }
    nextId := 2 }

/-- `saveToHistory()`: push a snapshot of the current blocks and active id
onto `past`, drop the oldest entry when the stack exceeds
`maxHistorySize`, and clear `future`. -/
def saveToHistory (now : Nat) (s : EditorState) : EditorState :=
  let pushed := s.history.past ++
    [{ blocks := s.document.blocks, activeBlockId := s.activeBlockId, timestamp := now }]
  { s with history :=
      { past := if maxHistorySize < pushed.length then pushed.drop 1 else pushed
        future := [] } }

/-- `undo()`: no-op when `past` is empty; otherwise unshift a snapshot of the
current state onto `future` and restore the top (last pushed) of `past`. -/
def undo (now : Nat) (s : EditorState) : EditorState :=
  match s.history.past.getLast? with
  | none => s
  | some previousState =>
      { s with
        history :=
          { past := s.history.past.dropLast
            future :=
              { blocks := s.document.blocks
                activeBlockId := s.activeBlockId
                timestamp := now } :: s.history.future }
        document := { s.document with blocks := previousState.blocks, updatedAt := now }
        activeBlockId := previousState.activeBlockId }

/-- `redo()`: no-op when `future` is empty; otherwise push a snapshot of the
current state onto `past` and restore the head of `future`. -/
def redo (now : Nat) (s : EditorState) : EditorState :=
  match s.history.future with
  | [] => s
  | nextState :: rest =>
      { s with
        history :=
          { past := s.history.past ++
              [{ blocks := s.document.blocks
                 activeBlockId := s.activeBlockId
                 timestamp := now }]
            future := rest }
        document := { s.document with blocks := nextState.blocks, updatedAt := now }
        activeBlockId := nextState.activeBlockId }

/-- `cycleSelection()`: 0 → select the active block, 1 → select all top-level
blocks (no `columnIndex`, no `parentTabId` back-reference), otherwise reset. -/
def cycleSelection (s : EditorState) : EditorState :=
  let topLevelBlocks := s.document.blocks.filter
    (fun b => b.columnIndex = none ∧ b.parentTabId = none)
  if s.selectionLevel = 0 then
    { s with
      selectionLevel := 1
      selectedBlockIds :=
        match s.activeBlockId with
        | some a => [a]
        | none => s.selectedBlockIds }
  else if s.selectionLevel = 1 then
    { s with selectionLevel := 2, selectedBlockIds := topLevelBlocks.map (·.id) }
  else
    { s with selectionLevel := 0, selectedBlockIds := [] }

/-- `clearSelection()`. -/
def clearSelection (s : EditorState) : EditorState :=
  { s with selectionLevel := 0, selectedBlockIds := [] }

/-- `setActiveBlock(blockId)`: set the focus; clear the selection only when a
progressive selection is active (`selectionLevel > 0`). -/
def setActiveBlock (blockId : Option Nat) (s : EditorState) : EditorState :=
  let s := { s with activeBlockId := blockId }
  if 0 < s.selectionLevel then
    { s with selectionLevel := 0, selectedBlockIds := [] }
  else s

/-- The empty paragraph literal `{id, type: PARAGRAPH, content: "",
properties: {}}` inserted by `deleteBlock` / `deleteSelectedBlocks` when the
document would become empty. -/
def emptyParagraph (freshId : Nat) : Block :=
  { id := freshId, type := .paragraph, content := "", properties := [] }

/-- `deleteSelectedBlocks()`: early return on empty selection, else save to
history, drop every selected block, refill with an empty paragraph if all
blocks are gone, focus the first block and reset the selection. -/
def deleteSelectedBlocks (now : Nat) (s : EditorState) : EditorState :=
  if s.selectedBlockIds = [] then s
  else
    let s := saveToHistory now s
    let remaining := s.document.blocks.filter (fun b => ¬ s.selectedBlockIds.contains b.id)
    let (blocks, nextId) :=
      if remaining = [] then ([emptyParagraph s.nextId], s.nextId + 1)
      else (remaining, s.nextId)
    { s with
      document := { s.document with blocks := blocks, updatedAt := now }
      activeBlockId := blocks.head?.map (·.id)
      selectedBlockIds := []
      selectionLevel := 0
      nextId := nextId }

/-- `addBlockAfter(afterBlockId, newBlock)`: insert after the given block, or
append when the id is absent; the new block (built by the caller with
`createBlock`) becomes active. -/
def addBlockAfter (afterBlockId : Nat) (ty : BlockType) (content : String)
    (now : Nat) (s : EditorState) : EditorState :=
  let newBlock := createBlock s.nextId ty content now
  let blocks :=
    match findBlockIndex s.document.blocks afterBlockId with
    | some index => spliceInsert s.document.blocks (index + 1) newBlock
    | none => s.document.blocks ++ [newBlock]
  { s with
    document := { s.document with blocks := blocks, updatedAt := now }
    activeBlockId := some newBlock.id
    nextId := s.nextId + 1 }

/-- `updateBlockContent(blockId, content)`: overwrite the content of the first
block with that id; untouched state when the id is absent. -/
def updateBlockContent (blockId : Nat) (content : String)
    (now : Nat) (s : EditorState) : EditorState :=
  if s.document.blocks.any (fun b => b.id = blockId) then
    { s with document :=
        { s.document with
          blocks := updateFirst (fun b => b.id = blockId)
            (fun b => { b with content := content }) s.document.blocks
          updatedAt := now } }
  else s

/-- `updateBlockProperties(blockId, properties)`:
`Object.assign(block.properties, properties)` on the first matching block. -/
def updateBlockProperties (blockId : Nat) (patch : Props)
    (now : Nat) (s : EditorState) : EditorState :=
  if s.document.blocks.any (fun b => b.id = blockId) then
    { s with document :=
        { s.document with
          blocks := updateFirst (fun b => b.id = blockId)
            (fun b => { b with properties := objAssign b.properties patch })
            s.document.blocks
          updatedAt := now } }
  else s

/-- `deleteBlock(blockId)`: saves to history **before** looking the id up;
when found, removes the block, refills with an empty paragraph if the
document became empty, and moves the focus to the preceding block. -/
def deleteBlock (blockId : Nat) (now : Nat) (s : EditorState) : EditorState :=
  let s := saveToHistory now s
  match findBlockIndex s.document.blocks blockId with
  | none => s
  | some index =>
      let blocks := spliceRemove s.document.blocks index
      if blocks = [] then
        let newBlock := emptyParagraph s.nextId
        { s with
          document := { s.document with blocks := [newBlock], updatedAt := now }
          activeBlockId := some newBlock.id
          nextId := s.nextId + 1 }
      else
        let newActiveIndex := index - 1
        { s with
          document := { s.document with blocks := blocks, updatedAt := now }
          activeBlockId := blocks[newActiveIndex]?.map (·.id) }

/-- `splitBlock(blockId, cursorPosition)`: saves to history first; when the id
is found, the block is replaced by the pair from `splitBlockAtCursor` and
the after-block (always a fresh paragraph) becomes active. -/
def splitBlock (blockId : Nat) (cursorPosition : Nat)
    (now : Nat) (s : EditorState) : EditorState :=
  let s := saveToHistory now s
  match findBlockIndex s.document.blocks blockId with
  | none => s
  | some index =>
      match s.document.blocks[index]? with
      | none => s
      | some block =>
          let (blockBefore, blockAfter) :=
            splitBlockAtCursor block cursorPosition s.nextId now
          let blocks :=
            spliceInsert (s.document.blocks.set index blockBefore) (index + 1) blockAfter
          { s with
            document := { s.document with blocks := blocks, updatedAt := now }
            activeBlockId := some blockAfter.id
            nextId := s.nextId + 1 }

/-- `mergeWithPreviousBlock(blockId)`: saves to history first; when the block
exists and has a predecessor, the predecessor absorbs its content via
`mergeBlocks` and the block is removed. -/
def mergeWithPreviousBlock (blockId : Nat) (now : Nat) (s : EditorState) : EditorState :=
  let s := saveToHistory now s
  match findBlockIndex s.document.blocks blockId with
  | none => s
  | some index =>
      if 0 < index then
        match s.document.blocks[index]?, s.document.blocks[index - 1]? with
        | some currentBlock, some previousBlock =>
            let mergedBlock := mergeBlocks previousBlock currentBlock
            let blocks :=
              spliceRemove (s.document.blocks.set (index - 1) mergedBlock) index
            { s with
              document := { s.document with blocks := blocks, updatedAt := now }
              activeBlockId := some mergedBlock.id }
        | _, _ => s
      else s

/-- `convertBlockType(blockId, newType, newContent)`: saves to history first;
for `tabs`/`columns` the factory `createBlockProperties` is used (a fresh
tab id is generated for `tabs`), otherwise the plain defaults table. -/
def convertBlockType (blockId : Nat) (newType : BlockType) (newContent : Option String)
    (now : Nat) (s : EditorState) : EditorState :=
  let s := saveToHistory now s
  if s.document.blocks.any (fun b => b.id = blockId) then
    let (properties, nextId) :=
      if newType = .tabs ∨ newType = .columns then
        (createBlockProperties newType s.nextId,
         if newType = .tabs then s.nextId + 1 else s.nextId)
      else (DEFAULT_BLOCK_PROPERTIES newType, s.nextId)
    { s with
      document :=
        { s.document with
          blocks := updateFirst (fun b => b.id = blockId)
            (fun b =>
              { b with
                type := newType
                properties := properties
                content := newContent.getD b.content })
            s.document.blocks
          updatedAt := now }
      nextId := nextId }
  else s

/-- `moveBlock(blockId, toIndex)`: saves to history first; splice-removes the
block and splice-reinserts it at `toIndex`; no-op when the id is missing or
the indices coincide. -/
def moveBlock (blockId : Nat) (toIndex : Nat) (now : Nat) (s : EditorState) : EditorState :=
  let s := saveToHistory now s
  match findBlockIndex s.document.blocks blockId with
  | none => s
  | some fromIndex =>
      if fromIndex = toIndex then s
      else
        match s.document.blocks[fromIndex]? with
        | none => s
        | some removed =>
            let blocks :=
              spliceInsert (spliceRemove s.document.blocks fromIndex) toIndex removed
            { s with document := { s.document with blocks := blocks, updatedAt := now } }

/-- `duplicateBlock(blockId)` (no history save in the source): inserts
`{...block, id: fresh, createdAt: fresh timestamp}` right after the block. -/
def duplicateBlock (blockId : Nat) (now : Nat) (s : EditorState) : EditorState :=
  match findBlockIndex s.document.blocks blockId with
  | none => s
  | some index =>
      match s.document.blocks[index]? with
      | none => s
      | some block =>
          let duplicated := { block with id := s.nextId, createdAt := some now }
          { s with
            document :=
              { s.document with
                blocks := spliceInsert s.document.blocks (index + 1) duplicated
                updatedAt := now }
            activeBlockId := some duplicated.id
            nextId := s.nextId + 1 }

/-- `block.properties?.indent || 0`. -/
def getIndent (props : Props) : Int :=
  match props.find? (fun p => p.1 = "indent") with
  | some (_, .n k) => k
  | _ => 0

/-- `indentBlock(blockId)`: bump `properties.indent` when below 3
(`updatedAt` refreshed only when something changed). -/
def indentBlock (blockId : Nat) (now : Nat) (s : EditorState) : EditorState :=
  match s.document.blocks.find? (fun b => b.id = blockId) with
  | none => s
  | some block =>
      let currentIndent := getIndent block.properties
      if currentIndent < 3 then
        { s with document :=
            { s.document with
              blocks := updateFirst (fun b => b.id = blockId)
                (fun b => { b with
                  properties := setKey b.properties "indent" (.n (currentIndent + 1)) })
                s.document.blocks
              updatedAt := now } }
      else s

/-- `outdentBlock(blockId)`: decrement `properties.indent` when above 0. -/
def outdentBlock (blockId : Nat) (now : Nat) (s : EditorState) : EditorState :=
  match s.document.blocks.find? (fun b => b.id = blockId) with
  | none => s
  | some block =>
      let currentIndent := getIndent block.properties
      if 0 < currentIndent then
        { s with document :=
            { s.document with
              blocks := updateFirst (fun b => b.id = blockId)
                (fun b => { b with
                  properties := setKey b.properties "indent" (.n (currentIndent - 1)) })
                s.document.blocks
              updatedAt := now } }
      else s

/-- Append `blockId` to the list stored under key `tabId` in a keyed map,
creating the entry first when absent (`children[tabId] = []` then `push`). -/
def pushTabEntry (m : List (Nat × List Nat)) (tabId blockId : Nat) :
    List (Nat × List Nat) :=
  let m := if m.any (fun e => e.1 = tabId) then m else m ++ [(tabId, [])]
  updateFirst (fun e => e.1 = tabId) (fun e => (e.1, e.2 ++ [blockId])) m

/-- `addBlockToColumn(columnsBlockId, columnIndex, newBlockData)`: saves to
history first; requires an existing `columns` block; the new block carries a
`columnIndex` back-reference and its id is appended to the column entry
(created on demand).  The payload carries the resolved
`newBlockData.type || PARAGRAPH` / `content || ""` / `properties || {}`
values.  A `columns` block whose `children` is a keyed object (only
producible by converting a `tabs` block in place) would make the source
throw at `children.find`; that aborted update is the `obj` branch. -/
def addBlockToColumn (columnsBlockId columnIdx : Nat) (ty : BlockType)
    (content : String) (props : Props) (now : Nat) (s : EditorState) : EditorState :=
  let s := saveToHistory now s
  match s.document.blocks.find? (fun b => b.id = columnsBlockId) with
  | none => s
  | some block =>
      if block.type = .columns then
        match (match block.children with | .undef => Children.arr [] [] | c => c) with
        | .obj _ => s
        | .undef => s
        | .arr cols extra =>
            let newBlock : Block :=
              { id := s.nextId, type := ty, content := content
                properties := props, columnIndex := some columnIdx }
            let cols :=
              if cols.any (fun c => c.columnIndex = columnIdx) then
                updateFirst (fun c => c.columnIndex = columnIdx)
                  (fun c => { c with blocks := c.blocks ++ [newBlock.id] }) cols
              else cols ++ [{ columnIndex := columnIdx, blocks := [newBlock.id] }]
            let blocks := updateFirst (fun b => b.id = columnsBlockId)
              (fun b => { b with children := .arr cols extra }) s.document.blocks
            { s with
              document :=
                { s.document with blocks := blocks ++ [newBlock], updatedAt := now }
              activeBlockId := some newBlock.id
              nextId := s.nextId + 1 }
      else s

/-- `addBlockToTab(tabsBlockId, tabId, newBlockData)`: saves to history first;
requires an existing `tabs` block; the new block carries a `parentTabId`
back-reference and its id is appended to `children[tabId]` (an absent
`children` becomes an object; an array `children` accepts `tabId` as a
keyed property, recorded in the `extra` component). -/
def addBlockToTab (tabsBlockId tabId : Nat) (ty : BlockType)
    (content : String) (props : Props) (now : Nat) (s : EditorState) : EditorState :=
  let s := saveToHistory now s
  match s.document.blocks.find? (fun b => b.id = tabsBlockId) with
  | none => s
  | some block =>
      if block.type = .tabs then
        let newBlock : Block :=
          { id := s.nextId, type := ty, content := content
            properties := props, parentTabId := some tabId }
        let children :=
          match block.children with
          | .undef => Children.obj (pushTabEntry [] tabId newBlock.id)
          | .obj tabMap => Children.obj (pushTabEntry tabMap tabId newBlock.id)
          | .arr cols extra => Children.arr cols (pushTabEntry extra tabId newBlock.id)
        let blocks := updateFirst (fun b => b.id = tabsBlockId)
          (fun b => { b with children := children }) s.document.blocks
        { s with
          document :=
            { s.document with blocks := blocks ++ [newBlock], updatedAt := now }
          activeBlockId := some newBlock.id
          nextId := s.nextId + 1 }
      else s

/-- A block literal as built by `createBlock` in the Markdown parser part of
`src/services/markdownSerializer.js`: `{id, type, content, properties}`. -/
def mkParserBlock (id : Nat) (ty : BlockType) (content : String) (props : Props) :
    Block :=
  { id := id, type := ty, content := content, properties := props }

/-- Materialise a list of `(type, content, properties)` payloads into blocks
with sequentially drawn fresh ids. -/
def buildBlocks (specs : List (BlockType × String × Props)) (n : Nat) :
    List Block × Nat :=
  match specs with
  | [] => ([], n)
  | (ty, content, props) :: rest =>
      let (bs, n') := buildBlocks rest (n + 1)
      (mkParserBlock n ty content props :: bs, n')

/-- `insertBlocksAtPosition(afterBlockId, newBlocks)`: early return on an
empty list; splices the blocks in after `afterBlockId` (after the last
block when `afterBlockId` is null), else appends; the last inserted block
becomes active. -/
def insertBlocksAtPosition (afterBlockId : Option Nat)
    (specs : List (BlockType × String × Props))
    (now : Nat) (s : EditorState) : EditorState :=
  if specs = [] then s
  else
    let (newBlocks, nextId) := buildBlocks specs s.nextId
    let index : Option Nat :=
      match afterBlockId with
      | some aid => findBlockIndex s.document.blocks aid
      | none =>
          if s.document.blocks.isEmpty then none
          else some (s.document.blocks.length - 1)
    let blocks :=
      match index with
      | some i => spliceInsertAll s.document.blocks (i + 1) newBlocks
      | none => s.document.blocks ++ newBlocks
    { s with
      document := { s.document with blocks := blocks, updatedAt := now }
      activeBlockId := newBlocks.getLast?.map (·.id)
      nextId := nextId }

/-- The Mutation Engine command surface (spec §4.3) together with the
selection / history machine (spec §4.4), as implemented in
`src/stores/editorStore.js`.  Commands that create blocks draw ids from
the fresh-id supply, the way their callers build payloads via
`createBlock` / the parser. -/
inductive Command where
  | addBlockAfter (afterBlockId : Nat) (ty : BlockType) (content : String)
  | updateBlockContent (blockId : Nat) (content : String)
  | updateBlockProperties (blockId : Nat) (patch : Props)
  | deleteBlock (blockId : Nat)
  | splitBlock (blockId : Nat) (cursorPosition : Nat)
  | mergeWithPreviousBlock (blockId : Nat)
  | convertBlockType (blockId : Nat) (newType : BlockType) (newContent : Option String)
  | moveBlock (blockId : Nat) (toIndex : Nat)
  | duplicateBlock (blockId : Nat)
  | indentBlock (blockId : Nat)
  | outdentBlock (blockId : Nat)
  | addBlockToColumn (columnsBlockId columnIdx : Nat) (ty : BlockType)
      (content : String) (props : Props)
  | addBlockToTab (tabsBlockId tabId : Nat) (ty : BlockType)
      (content : String) (props : Props)
  | insertBlocksAtPosition (afterBlockId : Option Nat)
      (specs : List (BlockType × String × Props))
  | deleteSelectedBlocks
  | cycleSelection
  | clearSelection
  | setActiveBlock (blockId : Option Nat)
  | undo
  | redo
  | saveToHistory
deriving DecidableEq, Repr

/-- Dispatch one command at time `now`. -/
def applyCommand (now : Nat) (c : Command) (s : EditorState) : EditorState :=
  match c with
  | .addBlockAfter aid ty content => addBlockAfter aid ty content now s
  | .updateBlockContent bid content => updateBlockContent bid content now s
  | .updateBlockProperties bid patch => updateBlockProperties bid patch now s
  | .deleteBlock bid => deleteBlock bid now s
  | .splitBlock bid pos => splitBlock bid pos now s
  | .mergeWithPreviousBlock bid => mergeWithPreviousBlock bid now s
  | .convertBlockType bid ty c? => convertBlockType bid ty c? now s
  | .moveBlock bid toIndex => moveBlock bid toIndex now s
  | .duplicateBlock bid => duplicateBlock bid now s
  | .indentBlock bid => indentBlock bid now s
  | .outdentBlock bid => outdentBlock bid now s
  | .addBlockToColumn cid idx ty content props =>
      addBlockToColumn cid idx ty content props now s
  | .addBlockToTab tid tab ty content props =>
      addBlockToTab tid tab ty content props now s
  | .insertBlocksAtPosition aid specs => insertBlocksAtPosition aid specs now s
  | .deleteSelectedBlocks => deleteSelectedBlocks now s
  | .cycleSelection => cycleSelection s
  | .clearSelection => clearSelection s
  | .setActiveBlock bid => setActiveBlock bid s
  | .undo => undo now s
  | .redo => redo now s
  | .saveToHistory => saveToHistory now s

/-- Run a timed command sequence. -/
def run (cmds : List (Nat × Command)) (s : EditorState) : EditorState :=
  cmds.foldl (fun acc tc => applyCommand tc.1 tc.2 acc) s

/-! ## Markdown import (`src/services/markdownSerializer.js`, parser part)

The `marked` block-level lexer is an external library; its output token
stream is the input of the embedded pipeline.  The token shapes below carry
exactly the fields the repository code reads. -/

/-- An inline token as consumed by `parseInlineTokens`. -/
inductive MdInline where
  | text (text : String)
  | strong (tokens : List MdInline)
  | em (tokens : List MdInline)
  | del (tokens : List MdInline)
  | link (href : String) (tokens : List MdInline)
  | codespan (text : String)
  | br
  | escape (text : String)
  | other (raw : String) (text : String)

mutual

/-- One case of the `map` inside `parseInlineTokens`. -/
def parseInlineToken : MdInline → String
  | .text t => t
  | .strong ts => "<strong>" ++ parseInlineTokens ts ++ "</strong>"
  | .em ts => "<em>" ++ parseInlineTokens ts ++ "</em>"
  | .del ts => "<s>" ++ parseInlineTokens ts ++ "</s>"
  | .link href ts => "<a href=\"" ++ href ++ "\">" ++ parseInlineTokens ts ++ "</a>"
  | .codespan t =>
      "<code style=\"background: #f3f4f6; padding: 2px 4px; border-radius: 3px;\">"
        ++ t ++ "</code>"
  | .br => "<br>"
  | .escape t => t
  | .other raw text => if raw ≠ "" then raw else text

/-- `parseInlineTokens(tokens)`: render inline tokens to embedded markup. -/
def parseInlineTokens : List MdInline → String
  | [] => ""
  | t :: ts => parseInlineToken t ++ parseInlineTokens ts

end

/-- An inner token of a `blockquote` token (`paragraph` or anything else,
read through `t.raw`). -/
inductive MdQuoteTok where
  | para (tokens : List MdInline)
  | rawTok (raw : String)

/-- An inner token of a list item (`text` / `paragraph` are kept, the rest is
filtered out); a `text` token may lack a `tokens` array. -/
inductive MdItemTok where
  | textTok (text : String) (tokens : Option (List MdInline))
  | paraTok (tokens : List MdInline)
  | otherTok (raw : String)

/-- A list item from the lexer: task flag, checked state, inner tokens, raw. -/
structure MdListItem where
  task : Bool
  checked : Bool
  tokens : List MdItemTok
  raw : String

/-- A block-level token from the `marked` lexer, restricted to the fields
`tokenToBlocks` reads. -/
inductive MdToken where
  | heading (depth : Nat) (text : String) (tokens : List MdInline)
  | paragraph (tokens : List MdInline)
  | blockquote (tokens : List MdQuoteTok)
  | listTok (ordered : Bool) (items : List MdListItem)
  | codeTok (text : String)
  | hr
  | table (header : List (List MdInline)) (rows : List (List (List MdInline)))
  | image (href : String) (text : String) (title : String)
  | html (text : String)
  | space
  | unknown (raw : String)

/-- `headingTypes[token.depth] || BLOCK_TYPES.HEADING_3`. -/
def headingBlockType (depth : Nat) : BlockType :=
  match depth with
  | 1 => .heading1
  | 2 => .heading2
  | 3 => .heading3
  | _ => .heading3

/-- The text a list item contributes: keep `text`/`paragraph` inner tokens,
render each through `parseInlineTokens` when it has a `tokens` array. -/
def listItemContent (toks : List MdItemTok) : String :=
  String.join (toks.filterMap (fun t =>
    match t with
    | .textTok text tokens =>
        some (match tokens with
              | some ts => parseInlineTokens ts
              | none => text)
    | .paraTok tokens => some (parseInlineTokens tokens)
    | .otherTok _ => none))

/-- `item.raw.match(/^\d+/)?.[0] || "1"`. -/
def leadingDigits (raw : String) : String :=
  let ds := raw.data.takeWhile (fun c => c.isDigit)
  if ds = [] then "1" else ⟨ds⟩

/-- The blocks one list item contributes
(`token.items.forEach` body in `tokenToBlocks`). -/
def listItemBlocks (ordered : Bool) (item : MdListItem) (n : Nat) :
    List Block × Nat :=
  if item.task then
    ([mkParserBlock n .task (listItemContent item.tokens)
        [("checked", .b item.checked)]], n + 1)
  else
    let pfx := if ordered then leadingDigits item.raw ++ ". " else "â€¢ "
    ([mkParserBlock n .paragraph (pfx ++ listItemContent item.tokens) []], n + 1)

/-- Accumulate blocks over a list, threading the fresh-id supply. -/
def accumBlocks (f : α → Nat → List Block × Nat) : List α → Nat → List Block × Nat
  | [], n => ([], n)
  | a :: as, n =>
      let (bs, n') := f a n
      let (rest, n'') := accumBlocks f as n'
      (bs ++ rest, n'')

/-- `tokenToBlocks(token, blocks)` from `src/services/markdownSerializer.js`:
the blocks one token appends, with the ids it draws. -/
def tokenToBlocks (t : MdToken) (n : Nat) : List Block × Nat :=
  match t with
  | .heading depth _ tokens =>
      ([mkParserBlock n (headingBlockType depth) (parseInlineTokens tokens) []], n + 1)
  | .paragraph tokens =>
      ([mkParserBlock n .paragraph (parseInlineTokens tokens) []], n + 1)
  | .blockquote tokens =>
      let quoteContent := String.intercalate "\n" (tokens.map (fun qt =>
        match qt with
        | .para ts => parseInlineTokens ts
        | .rawTok raw => raw))
      ([mkParserBlock n .quote quoteContent []], n + 1)
  | .listTok ordered items => accumBlocks (listItemBlocks ordered) items n
  | .codeTok text =>
      ([mkParserBlock n .paragraph ("<code>" ++ text ++ "</code>") []], n + 1)
  | .hr => ([mkParserBlock n .divider "" []], n + 1)
  | .table header rows =>
      let (headerBlocks, n₁) :=
        if header.length > 0 then
          ([mkParserBlock n .paragraph
              ("<strong>"
                ++ String.intercalate " | " (header.map parseInlineTokens)
                ++ "</strong>") []], n + 1)
        else ([], n)
      let (rowBlocks, n₂) := accumBlocks
        (fun row m =>
          ([mkParserBlock m .paragraph
              (String.intercalate " | " (row.map parseInlineTokens)) []], m + 1))
        rows n₁
      (headerBlocks ++ rowBlocks, n₂)
  | .image href text title =>
      ([mkParserBlock n .image ""
          [("url", .s href), ("alt", .s text), ("caption", .s title)]], n + 1)
  | .html text =>
      if text.trim ≠ "" then ([mkParserBlock n .paragraph text []], n + 1)
      else ([], n)
  | .space => ([], n)
  | .unknown raw =>
      if raw.trim ≠ "" then ([mkParserBlock n .paragraph raw []], n + 1)
      else ([], n)

/-- Whether a token is a depth-1 heading. -/
def isH1 (t : MdToken) : Bool :=
  match t with
  | .heading 1 _ _ => true
  | _ => false

/-- The `text` field of a heading token (`""` for anything else). -/
def headingText (t : MdToken) : String :=
  match t with
  | .heading _ text _ => text
  | _ => ""

/-- The token loop of `parseMarkdown`: the first depth-1 heading (while
`foundTitle` is still false) is consumed as the title and contributes no
block; everything else goes through `tokenToBlocks`.  Returns the title
this token list sets (if any), the blocks, and the advanced id supply. -/
def processTokensGo (tokens : List MdToken) (foundTitle : Bool) (n : Nat) :
    Option String × List Block × Nat :=
  match tokens with
  | [] => (none, [], n)
  | t :: rest =>
      if ¬foundTitle ∧ isH1 t then
        let (_, bs, n') := processTokensGo rest true n
        (some (headingText t), bs, n')
      else
        let (bs₁, n₁) := tokenToBlocks t n
        let (ttl, bs₂, n₂) := processTokensGo rest foundTitle n₁
        (ttl, bs₁ ++ bs₂, n₂)

/-- The token list without its first depth-1 heading (the one the loop
consumes as the title). -/
def stripFirstH1 : List MdToken → List MdToken
  | [] => []
  | t :: ts => if isH1 t then ts else t :: stripFirstH1 ts

/-- The `text` of the first depth-1 heading, when there is one. -/
def firstH1Text? : List MdToken → Option String
  | [] => none
  | t :: ts => if isH1 t then some (headingText t) else firstH1Text? ts

/-- `tokenToBlocks` folded over a whole token list. -/
def tokensToBlocks : List MdToken → Nat → List Block × Nat :=
  accumBlocks tokenToBlocks

/-- `.replace(/\r\n/g, "\n").replace(/\r/g, "\n")`. -/
def normalizeNewlines : List Char → List Char
  | [] => []
  | '\r' :: '\n' :: rest => '\n' :: normalizeNewlines rest
  | '\r' :: rest => '\n' :: normalizeNewlines rest
  | c :: rest => c :: normalizeNewlines rest

/-- `.split(/\n\n+/)`: split on runs of two or more newlines. -/
def splitDoubleNLGo (acc : List Char) (cs : List Char) : List (List Char) :=
  match cs with
  | [] => [acc.reverse]
  | '\n' :: '\n' :: rest =>
      acc.reverse :: splitDoubleNLGo [] (rest.dropWhile (fun c => c = '\n'))
  | c :: rest => splitDoubleNLGo (c :: acc) rest
termination_by cs.length
decreasing_by
  · simpa using Nat.lt_succ_of_le
      (Nat.le_succ_of_le (List.Sublist.length_le (List.dropWhile_sublist _)))
  · simp

/-- The character ``` (Markdown code-fence delimiter). -/
def fenceChar : Char := Char.ofNat 96

/-- The special-leading-pattern test of the importer's line joiner: headings,
blockquotes, list markers, numbered lists, code fences, horizontal rules
and table rows, each matched against the trimmed line. -/
def isSpecialLine (trimmed : String) : Bool :=
  let cs := trimmed.data
  let isHashHeading : Bool :=
    let hashes := cs.takeWhile (fun c => c = '#')
    decide (1 ≤ hashes.length) && decide (hashes.length ≤ 6) &&
      (match cs.drop hashes.length with
       | c :: _ => c.isWhitespace
       | [] => false)
  let isBlockquote : Bool :=
    match cs with
    | '>' :: c :: _ => c.isWhitespace
    | _ => false
  let isBullet : Bool :=
    match cs with
    | m :: c :: _ => (m = '-' || m = '*' || m = '+') && c.isWhitespace
    | _ => false
  let isNumbered : Bool :=
    let ds := cs.takeWhile (fun c => c.isDigit)
    decide (1 ≤ ds.length) &&
      (match cs.drop ds.length with
       | p :: c :: _ => (p = '.' || p = ')') && c.isWhitespace
       | _ => false)
  let isFence : Bool := cs.take 3 = [fenceChar, fenceChar, fenceChar]
  let isRule : Bool := trimmed = "---" || trimmed = "***" || trimmed = "___"
  let isTableRow : Bool :=
    match cs with
    | '|' :: (_ :: _ : List Char) => cs.getLast? = some '|'
    | _ => false
  isHashHeading || isBlockquote || isBullet || isNumbered || isFence || isRule
    || isTableRow

/-- The per-segment line joiner of the importer: special lines stay on their
own, blank lines flush the accumulated soft-wrapped text, other lines are
joined with a single space. -/
def joinLinesGo : List String → String → List String
  | [], currentLine =>
      if currentLine ≠ "" then [currentLine.trim] else []
  | line :: rest, currentLine =>
      let trimmed := line.trim
      if isSpecialLine trimmed then
        (if currentLine ≠ "" then [currentLine.trim] else []) ++
          line :: joinLinesGo rest ""
      else if trimmed = "" then
        (if currentLine ≠ "" then [currentLine.trim] else []) ++ joinLinesGo rest ""
      else
        joinLinesGo rest
          (if currentLine ≠ "" then currentLine ++ " " ++ trimmed else trimmed)

/-- The preprocessing of `parseMarkdown`: normalise line endings, then re-join
soft-wrapped lines inside each double-newline-separated segment. -/
def normalizeMarkdown (markdown : String) : String :=
  let normalized : String := ⟨normalizeNewlines markdown.data⟩
  let segments := (splitDoubleNLGo [] normalized.data).map
    (fun cs => (⟨cs⟩ : String))
  String.intercalate "\n\n" (segments.map (fun segment =>
    String.intercalate "\n" (joinLinesGo (segment.splitOn "\n") "")))

/-- The value handed to `parseMarkdown`: either not a string at all (the
`typeof markdown !== "string"` guard) or a string. -/
inductive MdValue where
  | nonString
  | str (s : String)

/-- The default document of the `!markdown || typeof markdown !== "string"`
guard: title `"Imported Document"`, one empty paragraph block. -/
def importFallbackDoc (n now : Nat) : Document :=
  { id := n
    title := "Imported Document"
    blocks := [mkParserBlock (n + 1) .paragraph "" []]
    createdAt := now
    updatedAt := now }

/-- `parseMarkdown(markdown)` from `src/services/markdownSerializer.js`,
parameterised by the external `marked.lexer`.  Returns the document and
the advanced fresh-id supply. -/
def parseMarkdown (lex : String → List MdToken) (input : MdValue) (n now : Nat) :
    Document × Nat :=
  match input with
  | .nonString => (importFallbackDoc n now, n + 2)
  | .str s =>
      if s = "" then (importFallbackDoc n now, n + 2)
      else
        let tokens := lex (normalizeMarkdown s)
        let (ttl, blocks, n₁) := processTokensGo tokens false n
        let (blocks, n₂) :=
          if blocks = [] then ([mkParserBlock n₁ .paragraph "" []], n₁ + 1)
          else (blocks, n₁)
        ({ id := n₂
           title := ttl.getD "Imported Document"
           blocks := blocks
           createdAt := now
           updatedAt := now }, n₂ + 1)

/-! ## Invariants and concrete example states -/

/-- The ids of a block list, in order. -/
def blockIds (bs : List Block) : List Nat :=
  bs.map Block.id

/-- A well-formed block collection with respect to the fresh-id supply bound
`n`: non-empty, pairwise-distinct ids, and every id below `n`. -/
def BlocksOk (n : Nat) (bs : List Block) : Prop :=
  bs ≠ [] ∧ (blockIds bs).Nodup ∧ ∀ b ∈ bs, b.id < n

/-- The state invariant preserved by every command: the live document and
every history snapshot are well-formed block collections, and a cleared
selection level carries no selected ids. -/
def Inv (s : EditorState) : Prop :=
  BlocksOk s.nextId s.document.blocks ∧
  (∀ snap ∈ s.history.past, BlocksOk s.nextId snap.blocks) ∧
  (∀ snap ∈ s.history.future, BlocksOk s.nextId snap.blocks) ∧
  (s.selectionLevel = 0 → s.selectedBlockIds = [])

/-- The commands whose handler begins with an unconditional
`get().saveToHistory()` in `src/stores/editorStore.js`. -/
def savesHistoryFirst : Command → Prop
  | .deleteBlock _ => True
  | .splitBlock _ _ => True
  | .mergeWithPreviousBlock _ => True
  | .convertBlockType _ _ _ => True
  | .moveBlock _ _ => True
  | .addBlockToColumn _ _ _ _ _ => True
  | .addBlockToTab _ _ _ _ _ => True
  | .saveToHistory => True
  | _ => False

/-- A concrete document state holding a single unchecked task block with
content `"ab"` (used to exercise `splitBlock` on a task). -/
def taskState : EditorState :=
  { document :=
      { id := 0
        title := "T"
        blocks := [{ id := 1, type := .task, content := "ab"
                     properties := [("checked", .b false)]
                     children := .arr [] [], createdAt := some 0 }]
        createdAt := 0
        updatedAt := 0 }
    activeBlockId := some 1
    selectionLevel := 0
    selectedBlockIds := []
    history := { past := [], future := [] }
    nextId := 2 }

/-- A concrete paragraph block with content `"Hello World"`. -/
def exHWBlock : Block :=
  { id := 7, type := .paragraph, content := "Hello World", properties := [] }

/-- A concrete heading block with id 1. -/
def exHeadingBlock : Block :=
  { id := 1, type := .heading1, content := "Hi", properties := [] }

/-- A concrete paragraph block with id 2. -/
def exParaBlock : Block :=
  { id := 2, type := .paragraph, content := "Body", properties := [] }

/-- A concrete two-block state (a heading and a paragraph), with the
paragraph active and one snapshot already in the redo stack. -/
def twoBlockState : EditorState :=
  { document :=
      { id := 0
        title := "Doc"
        blocks := [exHeadingBlock, exParaBlock]
        createdAt := 0
        updatedAt := 0 }
    activeBlockId := some 2
    selectionLevel := 0
    selectedBlockIds := []
    history :=
      { past := []
        future := [{ blocks := [{ id := 1, type := .heading1, content := "Old"
                                  properties := [] }]
                     activeBlockId := some 1
                     timestamp := 0 }] }
    nextId := 3 }

/-- `twoBlockState` with both blocks selected at level 2. -/
def exSelState : EditorState :=
  { twoBlockState with selectionLevel := 2, selectedBlockIds := [1, 2] }

/-! ## Helper lemmas -/

theorem strTake_append_strDrop (s : String) (n : Nat) :
    strTake s n ++ strDrop s n = s := by
  apply String.ext
  rw [String.data_append]
  simp [strTake, strDrop]

theorem findIdx?_append_firstOcc (p : α → Bool) (l₁ : List α) (b : α) (l₂ : List α)
    (i : Nat) (h₁ : ∀ a ∈ l₁, p a = false) (hb : p b = true) :
    List.findIdx? p (l₁ ++ b :: l₂) i = some (i + l₁.length) := by
  induction l₁ generalizing i with
  | nil => simp [List.findIdx?_cons, hb]
  | cons a l ih =>
      rw [List.cons_append, List.findIdx?_cons, if_neg (by simp [h₁ a (by simp)]),
        ih (i + 1) (fun x hx => h₁ x (by simp [hx]))]
      congr 1
      simp only [List.length_cons]
      omega

theorem findBlockIndex_append (l₁ : List Block) (b : Block) (l₂ : List Block)
    (bid : Nat) (hid : b.id = bid) (hfirst : ∀ a ∈ l₁, a.id ≠ bid) :
    findBlockIndex (l₁ ++ b :: l₂) bid = some l₁.length := by
  unfold findBlockIndex
  rw [findIdx?_append_firstOcc (fun x => decide (x.id = bid)) l₁ b l₂ 0
    (fun a ha => by simp [hfirst a ha]) (by simp [hid])]
  simp

theorem getElem?_append_length (l₁ : List α) (b : α) (l₂ : List α) :
    (l₁ ++ b :: l₂)[l₁.length]? = some b := by
  induction l₁ with
  | nil => simp
  | cons a l ih => simpa using ih

theorem set_append_length (l₁ : List α) (b x : α) (l₂ : List α) :
    (l₁ ++ b :: l₂).set l₁.length x = l₁ ++ x :: l₂ := by
  induction l₁ with
  | nil => rfl
  | cons a l ih => simp [List.set, ih]

theorem spliceInsert_append_length (l₁ : List α) (x y : α) (l₂ : List α) :
    spliceInsert (l₁ ++ x :: l₂) (l₁.length + 1) y = l₁ ++ x :: y :: l₂ := by
  induction l₁ with
  | nil => simp [spliceInsert]
  | cons a l ih =>
      simp only [spliceInsert, List.cons_append, List.length_cons,
        List.take_succ_cons, List.drop_succ_cons] at ih ⊢
      rw [ih]

/-! ## Claim C5: split/merge inverse -/

/-- C5: for every block `b` with content `c` and offset `k ≤ len c`,
`mergeBlocks` applied to the pair returned by `splitBlockAtCursor b k`
yields back `b` itself — same content, id, type and properties. -/
theorem merge_split_roundtrip (b : Block) (k freshId now : Nat)
    (hk : k ≤ b.content.length) :
    mergeBlocks (splitBlockAtCursor b k freshId now).1
        (splitBlockAtCursor b k freshId now).2 = b := by
  cases b with
  | mk id ty content props children colIdx ptab cAt =>
      simp [mergeBlocks, splitBlockAtCursor, createBlock,
        strTake_append_strDrop]

/-- Witness for C5 at `k = 5`, content `"Hello World"`. -/
theorem merge_split_roundtrip_witness :
    5 ≤ exHWBlock.content.length ∧
    mergeBlocks (splitBlockAtCursor exHWBlock 5 8 3).1
        (splitBlockAtCursor exHWBlock 5 8 3).2 = exHWBlock :=
  ⟨by decide, merge_split_roundtrip exHWBlock 5 8 3 (by decide)⟩

/-! ## Claim C4: splitBlock -/

/-- C4 counterexample: splitting a **task** block produces a `paragraph`
after-block, not a task — `splitBlockAtCursor` always creates a paragraph
and the store's `splitBlock` applies no type override. -/
theorem splitBlock_task_counterexample :
    taskState.document.blocks.map Block.type = [.task] ∧
    (applyCommand 5 (.splitBlock 1 1) taskState).document.blocks.map Block.type
      = [.task, .paragraph] := by
  decide

/-- C4 (amended): `splitBlock(id, k)` on an existing block `b` (first
occurrence of the id) replaces it by a before-block keeping the original
id, type and `c[0:k]`, inserts a **fresh paragraph** after-block with
`c[k:]` immediately after it (regardless of the source type), and makes
the after-block active. -/
theorem splitBlock_spec (s : EditorState) (l₁ l₂ : List Block) (b : Block)
    (bid k now : Nat)
    (hblocks : s.document.blocks = l₁ ++ b :: l₂)
    (hid : b.id = bid)
    (hfirst : ∀ a ∈ l₁, a.id ≠ bid) :
    (applyCommand now (.splitBlock bid k) s).document.blocks
        = l₁ ++ { b with content := strTake b.content k }
            :: createBlock s.nextId .paragraph (strDrop b.content k) now :: l₂
      ∧ (applyCommand now (.splitBlock bid k) s).activeBlockId = some s.nextId := by
  have hfind : findBlockIndex (l₁ ++ b :: l₂) bid = some l₁.length :=
    findBlockIndex_append l₁ b l₂ bid hid hfirst
  have hget : (l₁ ++ b :: l₂)[l₁.length]? = some b :=
    getElem?_append_length l₁ b l₂
  show (splitBlock bid k now s).document.blocks = _ ∧
    (splitBlock bid k now s).activeBlockId = _
  unfold splitBlock
  simp only [saveToHistory, hblocks, hfind, hget, splitBlockAtCursor,
    set_append_length, spliceInsert_append_length]
  exact ⟨trivial, rfl⟩

theorem findIdx?_eq_none_of_all (p : α → Bool) (l : List α) (i : Nat)
    (h : ∀ a ∈ l, p a = false) : List.findIdx? p l i = none := by
  induction l generalizing i with
  | nil => rfl
  | cons a t ih =>
      rw [List.findIdx?_cons, if_neg (by simp [h a (by simp)])]
      exact ih (i + 1) (fun x hx => h x (by simp [hx]))

theorem findBlockIndex_eq_none (blocks : List Block) (bid : Nat)
    (h : ∀ b ∈ blocks, b.id ≠ bid) : findBlockIndex blocks bid = none :=
  findIdx?_eq_none_of_all _ blocks 0 (fun b hb => by simp [h b hb])

theorem saveToHistory_past_ne_nil (now : Nat) (s : EditorState) :
    (saveToHistory now s).history.past ≠ [] := by
  unfold saveToHistory
  simp only
  split
  · next hlen =>
      refine List.length_pos.mp ?_
      simp only [maxHistorySize, List.length_append, List.length_singleton,
        List.length_drop] at hlen ⊢
      omega
  · simp

theorem deleteBlock_history (bid now : Nat) (s : EditorState) :
    (deleteBlock bid now s).history = (saveToHistory now s).history := by
  simp only [deleteBlock]
  split <;> first | rfl | (split <;> rfl)

theorem splitBlock_history (bid k now : Nat) (s : EditorState) :
    (splitBlock bid k now s).history = (saveToHistory now s).history := by
  simp only [splitBlock]
  split <;> first | rfl | (split <;> rfl)

theorem mergeWithPreviousBlock_history (bid now : Nat) (s : EditorState) :
    (mergeWithPreviousBlock bid now s).history = (saveToHistory now s).history := by
  simp only [mergeWithPreviousBlock]
  split
  · rfl
  · split
    · split <;> rfl
    · rfl

theorem convertBlockType_history (bid : Nat) (ty : BlockType) (c? : Option String)
    (now : Nat) (s : EditorState) :
    (convertBlockType bid ty c? now s).history = (saveToHistory now s).history := by
  simp only [convertBlockType]
  split <;> rfl

theorem moveBlock_history (bid toIdx now : Nat) (s : EditorState) :
    (moveBlock bid toIdx now s).history = (saveToHistory now s).history := by
  simp only [moveBlock]
  split
  · rfl
  · split
    · rfl
    · split <;> rfl

theorem addBlockToColumn_history (cid idx : Nat) (ty : BlockType) (content : String)
    (props : Props) (now : Nat) (s : EditorState) :
    (addBlockToColumn cid idx ty content props now s).history
      = (saveToHistory now s).history := by
  simp only [addBlockToColumn]
  split
  · rfl
  · split
    · split <;> rfl
    · rfl

theorem addBlockToTab_history (tid tab : Nat) (ty : BlockType) (content : String)
    (props : Props) (now : Nat) (s : EditorState) :
    (addBlockToTab tid tab ty content props now s).history
      = (saveToHistory now s).history := by
  simp only [addBlockToTab]
  split
  · rfl
  · split <;> rfl

theorem savesHistoryFirst_past_ne_nil (M : Command) (hM : savesHistoryFirst M)
    (n₀ : Nat) (s : EditorState) :
    (applyCommand n₀ M s).history.past ≠ [] := by
  cases M with
  | deleteBlock bid =>
      show (deleteBlock bid n₀ s).history.past ≠ []
      rw [deleteBlock_history]
      exact saveToHistory_past_ne_nil n₀ s
  | splitBlock bid k =>
      show (splitBlock bid k n₀ s).history.past ≠ []
      rw [splitBlock_history]
      exact saveToHistory_past_ne_nil n₀ s
  | mergeWithPreviousBlock bid =>
      show (mergeWithPreviousBlock bid n₀ s).history.past ≠ []
      rw [mergeWithPreviousBlock_history]
      exact saveToHistory_past_ne_nil n₀ s
  | convertBlockType bid ty c? =>
      show (convertBlockType bid ty c? n₀ s).history.past ≠ []
      rw [convertBlockType_history]
      exact saveToHistory_past_ne_nil n₀ s
  | moveBlock bid toIdx =>
      show (moveBlock bid toIdx n₀ s).history.past ≠ []
      rw [moveBlock_history]
      exact saveToHistory_past_ne_nil n₀ s
  | addBlockToColumn cid idx ty content props =>
      show (addBlockToColumn cid idx ty content props n₀ s).history.past ≠ []
      rw [addBlockToColumn_history]
      exact saveToHistory_past_ne_nil n₀ s
  | addBlockToTab tid tab ty content props =>
      show (addBlockToTab tid tab ty content props n₀ s).history.past ≠ []
      rw [addBlockToTab_history]
      exact saveToHistory_past_ne_nil n₀ s
  | saveToHistory => exact saveToHistory_past_ne_nil n₀ s
  | addBlockAfter a ty c => exact absurd hM (by simp [savesHistoryFirst])
  | updateBlockContent a c => exact absurd hM (by simp [savesHistoryFirst])
  | updateBlockProperties a p => exact absurd hM (by simp [savesHistoryFirst])
  | duplicateBlock a => exact absurd hM (by simp [savesHistoryFirst])
  | indentBlock a => exact absurd hM (by simp [savesHistoryFirst])
  | outdentBlock a => exact absurd hM (by simp [savesHistoryFirst])
  | insertBlocksAtPosition a sp => exact absurd hM (by simp [savesHistoryFirst])
  | deleteSelectedBlocks => exact absurd hM (by simp [savesHistoryFirst])
  | cycleSelection => exact absurd hM (by simp [savesHistoryFirst])
  | clearSelection => exact absurd hM (by simp [savesHistoryFirst])
  | setActiveBlock a => exact absurd hM (by simp [savesHistoryFirst])
  | undo => exact absurd hM (by simp [savesHistoryFirst])
  | redo => exact absurd hM (by simp [savesHistoryFirst])

theorem undo_redo_restores (t : EditorState) (n₁ n₂ : Nat)
    (h : t.history.past ≠ []) :
    (redo n₂ (undo n₁ t)).document.blocks = t.document.blocks ∧
    (redo n₂ (undo n₁ t)).activeBlockId = t.activeBlockId := by
  obtain ⟨snap, hsnap⟩ :=
    Option.isSome_iff_exists.mp ((List.getLast?_isSome).mpr h)
  unfold redo undo
  rw [hsnap]
  exact ⟨rfl, rfl⟩

/-! ## Claim C3: undo/redo -/

/-- C3: after a mutation `M` that begins by saving a pre-mutation snapshot,
`undo(); redo()` restores the block array and the active id of the state
immediately after `M`; `redo()` with empty future leaves the whole state
unchanged, and `undo()` with empty past leaves the whole state unchanged. -/
theorem undo_redo_of_mutation (s : EditorState) (M : Command)
    (n₀ n₁ n₂ n₃ : Nat) (hM : savesHistoryFirst M) :
    ((redo n₂ (undo n₁ (applyCommand n₀ M s))).document.blocks
        = (applyCommand n₀ M s).document.blocks
      ∧ (redo n₂ (undo n₁ (applyCommand n₀ M s))).activeBlockId
        = (applyCommand n₀ M s).activeBlockId)
    ∧ (∀ u : EditorState, u.history.future = [] → redo n₃ u = u)
    ∧ (∀ u : EditorState, u.history.past = [] → undo n₃ u = u) := by
  refine ⟨?_, ?_, ?_⟩
  · exact undo_redo_restores (applyCommand n₀ M s) n₁ n₂
      (savesHistoryFirst_past_ne_nil M hM n₀ s)
  · intro u hu
    unfold redo
    rw [hu]
  · intro u hu
    unfold undo
    rw [hu]
    rfl

/-- Witness for C3: `deleteBlock` on the initial document, then undo/redo. -/
theorem undo_redo_of_mutation_witness :
    savesHistoryFirst (.deleteBlock 1) ∧
    (((redo 3 (undo 2 (applyCommand 1 (.deleteBlock 1) (initState 0)))).document.blocks
        = (applyCommand 1 (.deleteBlock 1) (initState 0)).document.blocks
      ∧ (redo 3 (undo 2 (applyCommand 1 (.deleteBlock 1) (initState 0)))).activeBlockId
        = (applyCommand 1 (.deleteBlock 1) (initState 0)).activeBlockId)
    ∧ (∀ u : EditorState, u.history.future = [] → redo 4 u = u)
    ∧ (∀ u : EditorState, u.history.past = [] → undo 4 u = u)) :=
  ⟨trivial, undo_redo_of_mutation (initState 0) (.deleteBlock 1) 1 2 3 4 trivial⟩

/-! ## Claim C6: commands on a missing block id -/

/-- C6 counterexample: `deleteBlock` with an absent id still mutates the
undo/redo history — the unconditional `saveToHistory()` pushes a snapshot
(and would clear the redo stack), so the history is **not** unchanged. -/
theorem missing_id_history_counterexample :
    (∀ b ∈ (initState 0).document.blocks, b.id ≠ 99) ∧
    (applyCommand 1 (.deleteBlock 99) (initState 0)).history
      ≠ (initState 0).history := by
  decide

/-- C6 (amended): a command invoked with an absent block id leaves the
document (blocks, `updatedAt` and all), the active-block pointer, the
selection state and the fresh-id supply unchanged and raises no error;
`updateBlockContent` leaves the whole state untouched, while `deleteBlock`,
`splitBlock`, `mergeWithPreviousBlock`, `convertBlockType` and `moveBlock`
still run their unconditional pre-mutation `saveToHistory()` (pushing a
snapshot of the unchanged state and clearing the redo stack). -/
theorem missing_id_commands (s : EditorState) (bid k toIdx now : Nat)
    (ty : BlockType) (c? : Option String) (content : String)
    (hmiss : ∀ b ∈ s.document.blocks, b.id ≠ bid) :
    (∀ M ∈ [Command.deleteBlock bid, .splitBlock bid k,
        .mergeWithPreviousBlock bid, .convertBlockType bid ty c?,
        .moveBlock bid toIdx],
      (applyCommand now M s).document = s.document
      ∧ (applyCommand now M s).activeBlockId = s.activeBlockId
      ∧ (applyCommand now M s).selectionLevel = s.selectionLevel
      ∧ (applyCommand now M s).selectedBlockIds = s.selectedBlockIds
      ∧ (applyCommand now M s).nextId = s.nextId
      ∧ (applyCommand now M s).history = (saveToHistory now s).history)
    ∧ applyCommand now (.updateBlockContent bid content) s = s := by
  have hfind : findBlockIndex s.document.blocks bid = none :=
    findBlockIndex_eq_none s.document.blocks bid hmiss
  have hany : s.document.blocks.any (fun b => b.id = bid) = false := by
    simp only [List.any_eq_false, decide_eq_true_eq]
    exact hmiss
  constructor
  · intro M hMem
    simp only [List.mem_cons, List.mem_singleton, List.not_mem_nil] at hMem
    rcases hMem with rfl | rfl | rfl | rfl | rfl | h
    · simp [applyCommand, deleteBlock, saveToHistory, hfind]
    · simp [applyCommand, splitBlock, saveToHistory, hfind]
    · simp [applyCommand, mergeWithPreviousBlock, saveToHistory, hfind]
    · simp [applyCommand, convertBlockType, saveToHistory, hany]
    · simp [applyCommand, moveBlock, saveToHistory, hfind]
    · exact h.elim
  · simp [applyCommand, updateBlockContent, hany]

/-- Witness for C6: id 99 is absent from the initial document. -/
theorem missing_id_commands_witness :
    (∀ b ∈ (initState 0).document.blocks, b.id ≠ 99) ∧
    ((∀ M ∈ [Command.deleteBlock 99, .splitBlock 99 4,
        .mergeWithPreviousBlock 99, .convertBlockType 99 .quote none,
        .moveBlock 99 0],
      (applyCommand 7 M (initState 0)).document = (initState 0).document
      ∧ (applyCommand 7 M (initState 0)).activeBlockId = (initState 0).activeBlockId
      ∧ (applyCommand 7 M (initState 0)).selectionLevel = (initState 0).selectionLevel
      ∧ (applyCommand 7 M (initState 0)).selectedBlockIds
          = (initState 0).selectedBlockIds
      ∧ (applyCommand 7 M (initState 0)).nextId = (initState 0).nextId
      ∧ (applyCommand 7 M (initState 0)).history
          = (saveToHistory 7 (initState 0)).history)
    ∧ applyCommand 7 (.updateBlockContent 99 "x") (initState 0) = initState 0) :=
  ⟨by decide,
    missing_id_commands (initState 0) 99 4 0 7 .quote none "x" (by decide)⟩

/-- Witness for C4 (amended) on `twoBlockState`, splitting block 2 at 2. -/
theorem splitBlock_spec_witness :
    (twoBlockState.document.blocks = [exHeadingBlock] ++ exParaBlock :: []) ∧
    exParaBlock.id = 2 ∧
    (∀ a ∈ [exHeadingBlock], a.id ≠ 2) ∧
    ((applyCommand 9 (.splitBlock 2 2) twoBlockState).document.blocks
        = [exHeadingBlock]
            ++ { exParaBlock with content := strTake exParaBlock.content 2 }
            :: createBlock twoBlockState.nextId .paragraph
                (strDrop exParaBlock.content 2) 9 :: []
      ∧ (applyCommand 9 (.splitBlock 2 2) twoBlockState).activeBlockId
          = some twoBlockState.nextId) :=
  ⟨by decide, by decide, by decide,
    splitBlock_spec twoBlockState [exHeadingBlock] [] exParaBlock 2 2 9
      (by decide) (by decide) (by decide)⟩


/-! ## Claims C7 and C8: Markdown import -/

theorem processTokensGo_true (ts : List MdToken) (n : Nat) :
    processTokensGo ts true n
      = (none, (tokensToBlocks ts n).1, (tokensToBlocks ts n).2) := by
  induction ts generalizing n with
  | nil => rfl
  | cons t rest ih =>
      simp [processTokensGo, tokensToBlocks, accumBlocks, ih]

theorem processTokensGo_false (ts : List MdToken) (n : Nat) :
    processTokensGo ts false n
      = (firstH1Text? ts, (tokensToBlocks (stripFirstH1 ts) n).1,
          (tokensToBlocks (stripFirstH1 ts) n).2) := by
  induction ts generalizing n with
  | nil => rfl
  | cons t rest ih =>
      by_cases hh : isH1 t
      · simp [processTokensGo, stripFirstH1, firstH1Text?, hh,
          processTokensGo_true]
      · simp [processTokensGo, stripFirstH1, firstH1Text?, hh,
          tokensToBlocks, accumBlocks, ih]

theorem headingBlockType_gt3 (d : Nat) (hd : 3 < d) :
    headingBlockType d = .heading3 := by
  rcases d with _ | _ | _ | _ | d
  · omega
  · omega
  · omega
  · omega
  · rfl

theorem parseMarkdown_title_eq (lex : String → List MdToken) (s : String)
    (hs : ¬ s = "") (n now : Nat) :
    (parseMarkdown lex (.str s) n now).1.title
      = (firstH1Text? (lex (normalizeMarkdown s))).getD "Imported Document" := by
  simp only [parseMarkdown, if_neg hs, processTokensGo_false]

/-- C7: in the `parseMarkdown` token loop, the first depth-1 heading token of
the input is consumed as the document title and contributes no block (the
block stream and the id supply are those of the token list with that token
removed); every other heading token of depth 1, 2 or 3 yields one heading
block of the matching level, and a heading token of depth above 3 yields a
heading-3 block. -/
theorem parseMarkdown_heading_behaviour (ts : List MdToken)
    (lex : String → List MdToken) (s : String) (n m d now : Nat)
    (text : String) (toks : List MdInline)
    (hs : ¬ s = "") (hd : 3 < d) :
    processTokensGo ts false n
      = (firstH1Text? ts, (tokensToBlocks (stripFirstH1 ts) n).1,
          (tokensToBlocks (stripFirstH1 ts) n).2)
    ∧ (parseMarkdown lex (.str s) n now).1.title
        = (firstH1Text? (lex (normalizeMarkdown s))).getD "Imported Document"
    ∧ tokenToBlocks (.heading 1 text toks) m
        = ([mkParserBlock m .heading1 (parseInlineTokens toks) []], m + 1)
    ∧ tokenToBlocks (.heading 2 text toks) m
        = ([mkParserBlock m .heading2 (parseInlineTokens toks) []], m + 1)
    ∧ tokenToBlocks (.heading 3 text toks) m
        = ([mkParserBlock m .heading3 (parseInlineTokens toks) []], m + 1)
    ∧ tokenToBlocks (.heading d text toks) m
        = ([mkParserBlock m .heading3 (parseInlineTokens toks) []], m + 1) := by
  refine ⟨processTokensGo_false ts n, parseMarkdown_title_eq lex s hs n now,
    rfl, rfl, rfl, ?_⟩
  simp only [tokenToBlocks, headingBlockType_gt3 d hd]

/-- Witness for C7: a four-token stream on concrete inputs. -/
theorem parseMarkdown_heading_behaviour_witness :
    (¬ ("# T" : String) = "") ∧ 3 < 5 ∧
    (processTokensGo [MdToken.heading 1 "T" [.text "T"],
        .heading 2 "A" [.text "A"]] false 0
      = (firstH1Text? [MdToken.heading 1 "T" [.text "T"],
            .heading 2 "A" [.text "A"]],
         (tokensToBlocks (stripFirstH1 [MdToken.heading 1 "T" [.text "T"],
            .heading 2 "A" [.text "A"]]) 0).1,
         (tokensToBlocks (stripFirstH1 [MdToken.heading 1 "T" [.text "T"],
            .heading 2 "A" [.text "A"]]) 0).2)
    ∧ (parseMarkdown (fun _ => [MdToken.heading 1 "T" [.text "T"]])
          (.str "# T") 0 9).1.title
        = (firstH1Text? ((fun _ : String => [MdToken.heading 1 "T" [.text "T"]])
            (normalizeMarkdown "# T"))).getD "Imported Document"
    ∧ tokenToBlocks (.heading 1 "A" [.text "A"]) 4
        = ([mkParserBlock 4 .heading1 (parseInlineTokens [.text "A"]) []], 5)
    ∧ tokenToBlocks (.heading 2 "A" [.text "A"]) 4
        = ([mkParserBlock 4 .heading2 (parseInlineTokens [.text "A"]) []], 5)
    ∧ tokenToBlocks (.heading 3 "A" [.text "A"]) 4
        = ([mkParserBlock 4 .heading3 (parseInlineTokens [.text "A"]) []], 5)
    ∧ tokenToBlocks (.heading 5 "A" [.text "A"]) 4
        = ([mkParserBlock 4 .heading3 (parseInlineTokens [.text "A"]) []], 5)) :=
  ⟨by decide, by decide,
    parseMarkdown_heading_behaviour
      [MdToken.heading 1 "T" [.text "T"], .heading 2 "A" [.text "A"]]
      (fun _ => [MdToken.heading 1 "T" [.text "T"]]) "# T" 0 4 5 9 "A" [.text "A"]
      (by decide) (by decide)⟩

/-- C8: `parseMarkdown` is total over its embedding — for every lexer output,
every input (non-string or any string, the empty string included) the
resulting document has at least one block, and whenever the token stream
produces zero blocks the result is a single empty paragraph block. -/
theorem parseMarkdown_never_empty (lex : String → List MdToken)
    (input : MdValue) (n now : Nat) :
    (parseMarkdown lex input n now).1.blocks ≠ []
    ∧ (∀ s : String, ¬ s = "" →
        (processTokensGo (lex (normalizeMarkdown s)) false n).2.1 = [] →
        (parseMarkdown lex (.str s) n now).1.blocks
          = [mkParserBlock (processTokensGo (lex (normalizeMarkdown s)) false n).2.2
              .paragraph "" []]) := by
  constructor
  · match input with
    | .nonString => simp [parseMarkdown, importFallbackDoc]
    | .str s =>
        by_cases hs : s = ""
        · simp [parseMarkdown, hs, importFallbackDoc]
        · rcases hgo : processTokensGo (lex (normalizeMarkdown s)) false n
            with ⟨ttl, ⟨bs, n₁⟩⟩
          by_cases hz : bs = []
          · simp [parseMarkdown, if_neg hs, hgo, hz]
          · simp [parseMarkdown, if_neg hs, hgo, hz]
  · intro s hs hzero
    rcases hgo : processTokensGo (lex (normalizeMarkdown s)) false n
      with ⟨ttl, ⟨bs, n₁⟩⟩
    rw [hgo] at hzero
    simp only at hzero
    subst hzero
    simp [parseMarkdown, if_neg hs, hgo]

/-- Witness for C8 with the empty-output lexer on input `"x"`. -/
theorem parseMarkdown_never_empty_witness :
    ((parseMarkdown (fun _ => []) (.str "x") 0 9).1.blocks ≠ []
      ∧ (∀ s : String, ¬ s = "" →
          (processTokensGo ((fun _ : String => ([] : List MdToken))
              (normalizeMarkdown s)) false 0).2.1 = [] →
          (parseMarkdown (fun _ => []) (.str s) 0 9).1.blocks
            = [mkParserBlock (processTokensGo ((fun _ : String =>
                  ([] : List MdToken)) (normalizeMarkdown s)) false 0).2.2
                .paragraph "" []]))
    ∧ ¬ ("x" : String) = ""
    ∧ (processTokensGo ([] : List MdToken) false 0).2.1 = [] :=
  ⟨parseMarkdown_never_empty (fun _ => []) (.str "x") 0 9, by decide, by decide⟩



/-! ## Claim C9: selection cycling -/

/-- C9: from `selectionLevel = 0`, three consecutive `cycleSelection` calls
return to level 0 with no selected ids; after the second call the state is
at level 2 with `selectedBlockIds` exactly the ids of the blocks carrying
no back-reference (no `columnIndex`, no `parentTabId`); and
`setActiveBlock` forces level 0 and clears the selection (for any state
satisfying the reachable-state property that a cleared level carries no
selected ids). -/
theorem cycleSelection_behaviour (s t : EditorState) (bid : Option Nat)
    (h0 : s.selectionLevel = 0)
    (ht : t.selectionLevel = 0 → t.selectedBlockIds = []) :
    ((cycleSelection (cycleSelection (cycleSelection s))).selectionLevel = 0
      ∧ (cycleSelection (cycleSelection (cycleSelection s))).selectedBlockIds = [])
    ∧ ((cycleSelection (cycleSelection s)).selectionLevel = 2
      ∧ (cycleSelection (cycleSelection s)).selectedBlockIds
          = (s.document.blocks.filter
              (fun b => b.columnIndex = none ∧ b.parentTabId = none)).map (·.id))
    ∧ ((setActiveBlock bid t).selectionLevel = 0
      ∧ (setActiveBlock bid t).selectedBlockIds = []) := by
  refine ⟨?_, ?_, ?_⟩
  · match hA : s.activeBlockId with
    | some a => simp [cycleSelection, h0, hA]
    | none => simp [cycleSelection, h0, hA]
  · match hA : s.activeBlockId with
    | some a => simp [cycleSelection, h0, hA]
    | none => simp [cycleSelection, h0, hA]
  · by_cases hl : 0 < t.selectionLevel
    · simp [setActiveBlock, hl]
    · have h0' : t.selectionLevel = 0 := by omega
      simp [setActiveBlock, hl, ht h0', h0']

/-- Witness for C9 on `twoBlockState`. -/
theorem cycleSelection_behaviour_witness :
    twoBlockState.selectionLevel = 0 ∧
    (twoBlockState.selectionLevel = 0 → twoBlockState.selectedBlockIds = []) ∧
    (((cycleSelection (cycleSelection (cycleSelection twoBlockState))).selectionLevel = 0
      ∧ (cycleSelection (cycleSelection (cycleSelection twoBlockState))).selectedBlockIds
          = [])
    ∧ ((cycleSelection (cycleSelection twoBlockState)).selectionLevel = 2
      ∧ (cycleSelection (cycleSelection twoBlockState)).selectedBlockIds
          = (twoBlockState.document.blocks.filter
              (fun b => b.columnIndex = none ∧ b.parentTabId = none)).map (·.id))
    ∧ ((setActiveBlock (some 1) twoBlockState).selectionLevel = 0
      ∧ (setActiveBlock (some 1) twoBlockState).selectedBlockIds = [])) :=
  ⟨by decide, by decide,
    cycleSelection_behaviour twoBlockState twoBlockState (some 1)
      (by decide) (by decide)⟩

/-! ## Claim C10: updateBlockContent frame -/

theorem updateFirst_append (p : α → Bool) (f : α → α) (l₁ : List α) (b : α)
    (l₂ : List α) (h₁ : ∀ a ∈ l₁, p a = false) (hb : p b = true) :
    updateFirst p f (l₁ ++ b :: l₂) = l₁ ++ f b :: l₂ := by
  induction l₁ with
  | nil => simp [updateFirst, hb]
  | cons a l ih =>
      simp only [List.cons_append, updateFirst, h₁ a (by simp)]
      rw [if_neg (by simp [h₁ a (by simp)])]
      simp only [List.append_eq]
      rw [ih (fun x hx => h₁ x (by simp [hx]))]

/-- C10: `updateBlockContent(id, c)` with an existing id replaces exactly the
first matching block's `content` with `c` and refreshes
`document.updatedAt`, leaving the block's other fields, all other blocks,
their order, the active pointer, the selection state, both history stacks
and the id supply unchanged; with an absent id the state is untouched. -/
theorem updateBlockContent_frame (s : EditorState) (l₁ l₂ : List Block)
    (b : Block) (bid : Nat) (content : String) (now : Nat) :
    (s.document.blocks = l₁ ++ b :: l₂ → b.id = bid → (∀ a ∈ l₁, a.id ≠ bid) →
      applyCommand now (.updateBlockContent bid content) s
        = { s with document :=
              { s.document with
                blocks := l₁ ++ { b with content := content } :: l₂
                updatedAt := now } })
    ∧ ((∀ a ∈ s.document.blocks, a.id ≠ bid) →
        applyCommand now (.updateBlockContent bid content) s = s) := by
  constructor
  · intro hblocks hid hfirst
    have hany : s.document.blocks.any (fun x => x.id = bid) = true := by
      rw [hblocks]
      simp [hid]
    have hupd : updateFirst (fun x => decide (x.id = bid))
        (fun x => { x with content := content }) s.document.blocks
        = l₁ ++ { b with content := content } :: l₂ := by
      rw [hblocks]
      exact updateFirst_append _ _ l₁ b l₂
        (fun a ha => by simp [hfirst a ha]) (by simp [hid])
    simp only [applyCommand, updateBlockContent, hany, if_true, hupd]
  · intro hmiss
    have hany : s.document.blocks.any (fun x => x.id = bid) = false := by
      simp only [List.any_eq_false, decide_eq_true_eq]
      exact hmiss
    simp [applyCommand, updateBlockContent, hany]

/-- Witness for C10 on `twoBlockState`: update block 2, and a missing id 99. -/
theorem updateBlockContent_frame_witness :
    ((twoBlockState.document.blocks = [exHeadingBlock] ++ exParaBlock :: [] →
      exParaBlock.id = 2 → (∀ a ∈ [exHeadingBlock], a.id ≠ 2) →
      applyCommand 6 (.updateBlockContent 2 "New") twoBlockState
        = { twoBlockState with document :=
              { twoBlockState.document with
                blocks := [exHeadingBlock]
                  ++ { exParaBlock with content := "New" } :: []
                updatedAt := 6 } })
    ∧ ((∀ a ∈ twoBlockState.document.blocks, a.id ≠ 2) →
        applyCommand 6 (.updateBlockContent 2 "New") twoBlockState
          = twoBlockState))
    ∧ twoBlockState.document.blocks = [exHeadingBlock] ++ exParaBlock :: []
    ∧ exParaBlock.id = 2
    ∧ (∀ a ∈ [exHeadingBlock], a.id ≠ 2) :=
  ⟨updateBlockContent_frame twoBlockState [exHeadingBlock] [] exParaBlock 2 "New" 6,
    by decide, by decide, by decide⟩



/-! ## Claims C1 and C2: the preserved state invariant -/

theorem set_getElem_self (l : List α) (i : Nat) (h : i < l.length) :
    l.set i l[i] = l := by
  apply List.ext_getElem (by simp)
  intro n h1 h2
  rw [List.getElem_set]
  split
  · next he => subst he; rfl
  · rfl

theorem spliceInsert_perm (l : List α) (i : Nat) (a : α) :
    (spliceInsert l i a).Perm (a :: l) := by
  unfold spliceInsert
  refine (List.perm_middle).trans ?_
  rw [List.take_append_drop]

theorem spliceInsertAll_perm (l : List α) (i : Nat) (as : List α) :
    (spliceInsertAll l i as).Perm (as ++ l) := by
  unfold spliceInsertAll
  have h1 : (List.take i l ++ as).Perm (as ++ List.take i l) :=
    List.perm_append_comm
  refine (h1.append_right (List.drop i l)).trans ?_
  rw [List.append_assoc, List.take_append_drop]

theorem spliceRemove_sublist (l : List α) (i : Nat) :
    (spliceRemove l i).Sublist l := by
  unfold spliceRemove
  have h1 : List.drop (i + 1) l = List.drop 1 (List.drop i l) :=
    (List.drop_drop 1 i l).symm
  rw [h1]
  have h2 := List.Sublist.append_left
    (List.drop_sublist 1 (List.drop i l)) (List.take i l)
  have h3 : List.take i l ++ List.drop i l = l := List.take_append_drop i l
  rw [h3] at h2
  exact h2

theorem spliceRemove_length (l : List α) (i : Nat) (h : i < l.length) :
    (spliceRemove l i).length = l.length - 1 := by
  unfold spliceRemove
  rw [List.length_append, List.length_take, List.length_drop]
  omega

theorem BlocksOk_mono (n m : Nat) (bs : List Block) (hnm : n ≤ m)
    (h : BlocksOk n bs) : BlocksOk m bs :=
  ⟨h.1, h.2.1, fun b hb => lt_of_lt_of_le (h.2.2 b hb) hnm⟩

theorem BlocksOk_of_perm (n : Nat) (bs bs' : List Block)
    (hp : bs'.Perm bs) (h : BlocksOk n bs) : BlocksOk n bs' := by
  refine ⟨?_, ?_, ?_⟩
  · intro hnil
    exact h.1 (List.Perm.eq_nil (hnil ▸ hp.symm))
  · exact (List.Perm.map Block.id hp.symm).nodup h.2.1
  · intro b hb
    exact h.2.2 b (hp.mem_iff.mp hb)

theorem BlocksOk_of_sublist (n : Nat) (bs bs' : List Block)
    (hs : bs'.Sublist bs) (hne : bs' ≠ []) (h : BlocksOk n bs) :
    BlocksOk n bs' :=
  ⟨hne, List.Nodup.sublist (hs.map Block.id) h.2.1,
    fun b hb => h.2.2 b (hs.mem hb)⟩

theorem fresh_not_mem (n : Nat) (bs : List Block)
    (h : ∀ b ∈ bs, b.id < n) : n ∉ blockIds bs := by
  intro hmem
  obtain ⟨b, hb, hid⟩ := List.mem_map.mp hmem
  exact absurd (hid ▸ h b hb) (lt_irrefl n)

theorem BlocksOk_cons_fresh (n : Nat) (bs : List Block) (b : Block)
    (hb : b.id = n) (h : BlocksOk n bs) : BlocksOk (n + 1) (b :: bs) := by
  refine ⟨by simp, ?_, ?_⟩
  · rw [blockIds, List.map_cons, List.nodup_cons]
    exact ⟨hb ▸ fresh_not_mem n bs h.2.2, h.2.1⟩
  · intro x hx
    rcases List.mem_cons.mp hx with rfl | hx
    · omega
    · exact lt_of_lt_of_le (h.2.2 x hx) (Nat.le_succ n)

theorem updateFirst_map_eq (g : α → β) (p : α → Bool) (f : α → α) (l : List α)
    (hf : ∀ a, g (f a) = g a) : (updateFirst p f l).map g = l.map g := by
  induction l with
  | nil => rfl
  | cons a t ih =>
      unfold updateFirst
      split
      · simp [hf a]
      · simpa using ih

theorem BlocksOk_updateFirst (n : Nat) (bs : List Block) (p : Block → Bool)
    (f : Block → Block) (hf : ∀ b, (f b).id = b.id) (h : BlocksOk n bs) :
    BlocksOk n (updateFirst p f bs) := by
  have hids : blockIds (updateFirst p f bs) = blockIds bs :=
    updateFirst_map_eq Block.id p f bs hf
  have hlen : (updateFirst p f bs).length = bs.length := by
    have := congrArg List.length hids
    simpa [blockIds] using this
  refine ⟨?_, hids ▸ h.2.1, ?_⟩
  · intro hnil
    rw [hnil] at hlen
    exact h.1 (List.eq_nil_of_length_eq_zero hlen.symm)
  · intro b hb
    have : b.id ∈ blockIds bs := hids ▸ List.mem_map_of_mem Block.id hb
    obtain ⟨c, hc, hcb⟩ := List.mem_map.mp this
    exact hcb ▸ h.2.2 c hc



theorem Inv_saveToHistory (now : Nat) (s : EditorState) (h : Inv s) :
    Inv (saveToHistory now s) := by
  obtain ⟨hdoc, hpast, hfut, hsel⟩ := h
  refine ⟨hdoc, ?_, ?_, hsel⟩
  · intro snap hsnap
    simp only [saveToHistory] at hsnap
    have hmem : snap ∈ s.history.past ++
        [{ blocks := s.document.blocks, activeBlockId := s.activeBlockId,
           timestamp := now }] := by
      split at hsnap
      · exact (List.drop_sublist 1 _).mem hsnap
      · exact hsnap
    rcases List.mem_append.mp hmem with hm | hm
    · exact hpast snap hm
    · rw [List.mem_singleton.mp hm]
      exact hdoc
  · intro snap hsnap
    simp [saveToHistory] at hsnap

theorem Inv_cycleSelection (s : EditorState) (h : Inv s) :
    Inv (cycleSelection s) := by
  obtain ⟨hdoc, hpast, hfut, hsel⟩ := h
  by_cases h0 : s.selectionLevel = 0
  · simp only [cycleSelection, if_pos h0]
    exact ⟨hdoc, hpast, hfut, by intro hx; simp at hx⟩
  · by_cases h1 : s.selectionLevel = 1
    · simp only [cycleSelection, if_neg h0, if_pos h1]
      exact ⟨hdoc, hpast, hfut, by intro hx; simp at hx⟩
    · simp only [cycleSelection, if_neg h0, if_neg h1]
      exact ⟨hdoc, hpast, hfut, fun _ => rfl⟩

theorem Inv_clearSelection (s : EditorState) (h : Inv s) :
    Inv (clearSelection s) :=
  ⟨h.1, h.2.1, h.2.2.1, fun _ => rfl⟩

theorem Inv_setActiveBlock (bid : Option Nat) (s : EditorState) (h : Inv s) :
    Inv (setActiveBlock bid s) := by
  obtain ⟨hdoc, hpast, hfut, hsel⟩ := h
  by_cases hl : 0 < s.selectionLevel
  · simp only [setActiveBlock, if_pos hl]
    exact ⟨hdoc, hpast, hfut, fun _ => rfl⟩
  · simp only [setActiveBlock, if_neg hl]
    exact ⟨hdoc, hpast, hfut, hsel⟩

theorem Inv_undo (now : Nat) (s : EditorState) (h : Inv s) :
    Inv (undo now s) := by
  obtain ⟨hdoc, hpast, hfut, hsel⟩ := h
  unfold undo
  cases hlast : s.history.past.getLast? with
  | none => exact ⟨hdoc, hpast, hfut, hsel⟩
  | some previousState =>
      refine ⟨?_, ?_, ?_, hsel⟩
      · exact hpast previousState (List.mem_of_mem_getLast? (by rw [hlast]; rfl))
      · intro snap hsnap
        exact hpast snap ((List.dropLast_sublist _).mem hsnap)
      · intro snap hsnap
        rcases List.mem_cons.mp hsnap with rfl | hm
        · exact hdoc
        · exact hfut snap hm

theorem Inv_redo (now : Nat) (s : EditorState) (h : Inv s) :
    Inv (redo now s) := by
  obtain ⟨hdoc, hpast, hfut, hsel⟩ := h
  unfold redo
  cases hfutl : s.history.future with
  | nil => exact ⟨hdoc, hpast, hfut, hsel⟩
  | cons nextState rest =>
      refine ⟨?_, ?_, ?_, hsel⟩
      · exact hfut nextState (by rw [hfutl]; exact List.mem_cons_self _ _)
      · intro snap hsnap
        rcases List.mem_append.mp hsnap with hm | hm
        · exact hpast snap hm
        · rw [List.mem_singleton.mp hm]
          exact hdoc
      · intro snap hsnap
        exact hfut snap (by rw [hfutl]; exact List.mem_cons_of_mem _ hsnap)



theorem BlocksOk_of_ids_eq (n : Nat) (bs bs' : List Block)
    (hids : blockIds bs' = blockIds bs) (h : BlocksOk n bs) :
    BlocksOk n bs' := by
  refine ⟨?_, hids ▸ h.2.1, ?_⟩
  · intro hnil
    have := congrArg List.length hids
    rw [hnil] at this
    simp [blockIds] at this
    exact h.1 (List.eq_nil_of_length_eq_zero this.symm)
  · intro b hb
    have : b.id ∈ blockIds bs := hids ▸ List.mem_map_of_mem Block.id hb
    obtain ⟨c, hc, hcb⟩ := List.mem_map.mp this
    exact hcb ▸ h.2.2 c hc

theorem blockIds_set_self (bs : List Block) (i : Nat) (hi : i < bs.length)
    (b : Block) (hid : b.id = bs[i].id) :
    blockIds (bs.set i b) = blockIds bs := by
  unfold blockIds
  rw [List.map_set, hid]
  have hi2 : i < (List.map Block.id bs).length := by simpa using hi
  have hmap : (List.map Block.id bs)[i] = bs[i].id := List.getElem_map Block.id
  rw [← hmap]
  exact set_getElem_self _ _ hi2

theorem BlocksOk_cons_fresh_perm (n : Nat) (bs bs' : List Block) (b : Block)
    (hb : b.id = n) (hperm : bs'.Perm (b :: bs)) (h : BlocksOk n bs) :
    BlocksOk (n + 1) bs' :=
  BlocksOk_of_perm _ _ _ hperm (BlocksOk_cons_fresh n bs b hb h)

theorem spliceRemove_cons_perm (l : List α) (i : Nat) (h : i < l.length) :
    (l[i] :: spliceRemove l i).Perm l := by
  conv_rhs => rw [← List.take_append_drop i l]
  unfold spliceRemove
  have hdrop : List.drop i l = l[i] :: List.drop (i + 1) l :=
    List.drop_eq_getElem_cons h
  rw [hdrop]
  exact (List.perm_middle).symm

theorem Inv_update_doc (s : EditorState) (p : Block → Bool) (f : Block → Block)
    (hf : ∀ b, (f b).id = b.id) (now nid : Nat) (hle : s.nextId ≤ nid)
    (h : Inv s) :
    Inv { s with
          document := { s.document with
            blocks := updateFirst p f s.document.blocks, updatedAt := now }
          nextId := nid } := by
  obtain ⟨hdoc, hpast, hfut, hsel⟩ := h
  exact ⟨BlocksOk_updateFirst nid _ p f hf (BlocksOk_mono _ _ _ hle hdoc),
    fun snap hs => BlocksOk_mono _ _ _ hle (hpast snap hs),
    fun snap hs => BlocksOk_mono _ _ _ hle (hfut snap hs), hsel⟩

theorem Inv_updateBlockContent (bid : Nat) (content : String) (now : Nat)
    (s : EditorState) (h : Inv s) :
    Inv (updateBlockContent bid content now s) := by
  obtain ⟨hdoc, hpast, hfut, hsel⟩ := h
  simp only [updateBlockContent]
  split
  · exact ⟨BlocksOk_updateFirst _ _ _ _ (fun b => rfl) hdoc, hpast, hfut, hsel⟩
  · exact ⟨hdoc, hpast, hfut, hsel⟩

theorem Inv_updateBlockProperties (bid : Nat) (patch : Props) (now : Nat)
    (s : EditorState) (h : Inv s) :
    Inv (updateBlockProperties bid patch now s) := by
  obtain ⟨hdoc, hpast, hfut, hsel⟩ := h
  simp only [updateBlockProperties]
  split
  · exact ⟨BlocksOk_updateFirst _ _ _ _ (fun b => rfl) hdoc, hpast, hfut, hsel⟩
  · exact ⟨hdoc, hpast, hfut, hsel⟩

theorem Inv_indentBlock (bid now : Nat) (s : EditorState) (h : Inv s) :
    Inv (indentBlock bid now s) := by
  obtain ⟨hdoc, hpast, hfut, hsel⟩ := h
  simp only [indentBlock]
  split
  · exact ⟨hdoc, hpast, hfut, hsel⟩
  · split
    · exact ⟨BlocksOk_updateFirst _ _ _ _ (fun b => rfl) hdoc, hpast, hfut, hsel⟩
    · exact ⟨hdoc, hpast, hfut, hsel⟩

theorem Inv_outdentBlock (bid now : Nat) (s : EditorState) (h : Inv s) :
    Inv (outdentBlock bid now s) := by
  obtain ⟨hdoc, hpast, hfut, hsel⟩ := h
  simp only [outdentBlock]
  split
  · exact ⟨hdoc, hpast, hfut, hsel⟩
  · split
    · exact ⟨BlocksOk_updateFirst _ _ _ _ (fun b => rfl) hdoc, hpast, hfut, hsel⟩
    · exact ⟨hdoc, hpast, hfut, hsel⟩

theorem Inv_convertBlockType (bid : Nat) (ty : BlockType) (c? : Option String)
    (now : Nat) (s : EditorState) (h : Inv s) :
    Inv (convertBlockType bid ty c? now s) := by
  have h' := Inv_saveToHistory now s h
  simp only [convertBlockType]
  split
  · by_cases hor : ty = .tabs ∨ ty = .columns
    · by_cases htabs : ty = .tabs
      · simp only [if_pos hor, if_pos htabs]
        exact Inv_update_doc (saveToHistory now s) (fun b => decide (b.id = bid))
          (fun b => { b with
            type := ty
            properties := createBlockProperties ty (saveToHistory now s).nextId
            content := c?.getD b.content })
          (fun b => rfl) now _ (Nat.le_succ _) h'
      · simp only [if_pos hor, if_neg htabs]
        exact Inv_update_doc (saveToHistory now s) (fun b => decide (b.id = bid))
          (fun b => { b with
            type := ty
            properties := createBlockProperties ty (saveToHistory now s).nextId
            content := c?.getD b.content })
          (fun b => rfl) now _ (Nat.le_refl _) h'
    · simp only [if_neg hor]
      exact Inv_update_doc (saveToHistory now s) (fun b => decide (b.id = bid))
        (fun b => { b with
          type := ty
          properties := DEFAULT_BLOCK_PROPERTIES ty
          content := c?.getD b.content })
        (fun b => rfl) now _ (Nat.le_refl _) h'
  · exact h'



theorem BlocksOk_append_singleton_fresh (n : Nat) (bs : List Block) (b : Block)
    (hb : b.id = n) (h : BlocksOk n bs) : BlocksOk (n + 1) (bs ++ [b]) :=
  BlocksOk_of_perm _ _ _ List.perm_append_comm (BlocksOk_cons_fresh n bs b hb h)

theorem Inv_addBlockAfter (aid : Nat) (ty : BlockType) (content : String)
    (now : Nat) (s : EditorState) (h : Inv s) :
    Inv (addBlockAfter aid ty content now s) := by
  obtain ⟨hdoc, hpast, hfut, hsel⟩ := h
  simp only [addBlockAfter]
  split
  · refine ⟨?_, ?_, ?_, hsel⟩
    · exact BlocksOk_cons_fresh_perm _ _ _ _ rfl (spliceInsert_perm _ _ _) hdoc
    · exact fun snap hs => BlocksOk_mono _ _ _ (Nat.le_succ _) (hpast snap hs)
    · exact fun snap hs => BlocksOk_mono _ _ _ (Nat.le_succ _) (hfut snap hs)
  · refine ⟨?_, ?_, ?_, hsel⟩
    · exact BlocksOk_append_singleton_fresh _ _ _ rfl hdoc
    · exact fun snap hs => BlocksOk_mono _ _ _ (Nat.le_succ _) (hpast snap hs)
    · exact fun snap hs => BlocksOk_mono _ _ _ (Nat.le_succ _) (hfut snap hs)

theorem Inv_deleteBlock (bid now : Nat) (s : EditorState) (h : Inv s) :
    Inv (deleteBlock bid now s) := by
  have h' := Inv_saveToHistory now s h
  obtain ⟨hdoc, hpast, hfut, hsel⟩ := h'
  simp only [deleteBlock]
  split
  · exact ⟨hdoc, hpast, hfut, hsel⟩
  · split
    · refine ⟨⟨by simp, by simp [blockIds, emptyParagraph], ?_⟩, ?_, ?_, hsel⟩
      · intro b hb
        rw [List.mem_singleton.mp hb]
        simp [emptyParagraph]
      · exact fun snap hs => BlocksOk_mono _ _ _ (Nat.le_succ _) (hpast snap hs)
      · exact fun snap hs => BlocksOk_mono _ _ _ (Nat.le_succ _) (hfut snap hs)
    · next hne =>
        exact ⟨BlocksOk_of_sublist _ _ _ (spliceRemove_sublist _ _) hne hdoc,
          hpast, hfut, hsel⟩

theorem Inv_splitBlock (bid k now : Nat) (s : EditorState) (h : Inv s) :
    Inv (splitBlock bid k now s) := by
  have h' := Inv_saveToHistory now s h
  obtain ⟨hdoc, hpast, hfut, hsel⟩ := h'
  simp only [splitBlock, splitBlockAtCursor]
  split
  · exact ⟨hdoc, hpast, hfut, hsel⟩
  · next index hfind =>
      split
      · exact ⟨hdoc, hpast, hfut, hsel⟩
      · next block hget =>
          obtain ⟨hlt, hblk⟩ := List.getElem?_eq_some.mp hget
          refine ⟨?_, ?_, ?_, hsel⟩
          · refine BlocksOk_cons_fresh_perm _ _ _ _ rfl (spliceInsert_perm _ _ _) ?_
            refine BlocksOk_of_ids_eq _ _ _ ?_ hdoc
            exact blockIds_set_self _ index hlt _ (by rw [hblk])
          · exact fun snap hs => BlocksOk_mono _ _ _ (Nat.le_succ _) (hpast snap hs)
          · exact fun snap hs => BlocksOk_mono _ _ _ (Nat.le_succ _) (hfut snap hs)

theorem Inv_mergeWithPreviousBlock (bid now : Nat) (s : EditorState) (h : Inv s) :
    Inv (mergeWithPreviousBlock bid now s) := by
  have h' := Inv_saveToHistory now s h
  obtain ⟨hdoc, hpast, hfut, hsel⟩ := h'
  simp only [mergeWithPreviousBlock]
  split
  · exact ⟨hdoc, hpast, hfut, hsel⟩
  · next index hfind =>
      split
      · next hpos =>
          split
          · next currentBlock previousBlock hcur hprev =>
              obtain ⟨hltc, hc⟩ := List.getElem?_eq_some.mp hcur
              obtain ⟨hltp, hp⟩ := List.getElem?_eq_some.mp hprev
              refine ⟨?_, hpast, hfut, hsel⟩
              have hids : blockIds
                  ((saveToHistory now s).document.blocks.set (index - 1)
                    (mergeBlocks previousBlock currentBlock))
                  = blockIds (saveToHistory now s).document.blocks :=
                blockIds_set_self _ (index - 1) hltp _ (by rw [hp]; rfl)
              have hX := BlocksOk_of_ids_eq _ _ _ hids hdoc
              refine BlocksOk_of_sublist _ _ _ (spliceRemove_sublist _ _) ?_ hX
              refine List.length_pos.mp ?_
              rw [spliceRemove_length _ _ (by simpa using hltc)]
              simp only [List.length_set]
              omega
          · exact ⟨hdoc, hpast, hfut, hsel⟩
      · exact ⟨hdoc, hpast, hfut, hsel⟩

theorem Inv_moveBlock (bid toIdx now : Nat) (s : EditorState) (h : Inv s) :
    Inv (moveBlock bid toIdx now s) := by
  have h' := Inv_saveToHistory now s h
  obtain ⟨hdoc, hpast, hfut, hsel⟩ := h'
  simp only [moveBlock]
  split
  · exact ⟨hdoc, hpast, hfut, hsel⟩
  · next fromIndex hfind =>
      split
      · exact ⟨hdoc, hpast, hfut, hsel⟩
      · split
        · exact ⟨hdoc, hpast, hfut, hsel⟩
        · next removed hrm =>
            obtain ⟨hlt, hr⟩ := List.getElem?_eq_some.mp hrm
            refine ⟨?_, hpast, hfut, hsel⟩
            refine BlocksOk_of_perm _ _ _ ?_ hdoc
            refine (spliceInsert_perm _ _ _).trans ?_
            rw [← hr]
            exact spliceRemove_cons_perm _ fromIndex hlt

theorem Inv_duplicateBlock (bid now : Nat) (s : EditorState) (h : Inv s) :
    Inv (duplicateBlock bid now s) := by
  obtain ⟨hdoc, hpast, hfut, hsel⟩ := h
  simp only [duplicateBlock]
  split
  · exact ⟨hdoc, hpast, hfut, hsel⟩
  · split
    · exact ⟨hdoc, hpast, hfut, hsel⟩
    · refine ⟨?_, ?_, ?_, hsel⟩
      · exact BlocksOk_cons_fresh_perm _ _ _ _ rfl (spliceInsert_perm _ _ _) hdoc
      · exact fun snap hs => BlocksOk_mono _ _ _ (Nat.le_succ _) (hpast snap hs)
      · exact fun snap hs => BlocksOk_mono _ _ _ (Nat.le_succ _) (hfut snap hs)

theorem Inv_deleteSelectedBlocks (now : Nat) (s : EditorState) (h : Inv s) :
    Inv (deleteSelectedBlocks now s) := by
  simp only [deleteSelectedBlocks]
  split
  · exact h
  · have h' := Inv_saveToHistory now s h
    obtain ⟨hdoc, hpast, hfut, hsel⟩ := h'
    split
    · next hrem =>
        refine ⟨⟨by simp, by simp [blockIds, emptyParagraph], ?_⟩, ?_, ?_,
          fun _ => rfl⟩
        · intro b hb
          rw [List.mem_singleton.mp hb]
          simp [emptyParagraph]
        · exact fun snap hs => BlocksOk_mono _ _ _ (Nat.le_succ _) (hpast snap hs)
        · exact fun snap hs => BlocksOk_mono _ _ _ (Nat.le_succ _) (hfut snap hs)
    · next hrem =>
        exact ⟨BlocksOk_of_sublist _ _ _ (List.filter_sublist _) hrem hdoc,
          hpast, hfut, fun _ => rfl⟩

theorem Inv_addBlockToColumn (cid idx : Nat) (ty : BlockType) (content : String)
    (props : Props) (now : Nat) (s : EditorState) (h : Inv s) :
    Inv (addBlockToColumn cid idx ty content props now s) := by
  have h' := Inv_saveToHistory now s h
  obtain ⟨hdoc, hpast, hfut, hsel⟩ := h'
  simp only [addBlockToColumn]
  split
  · exact ⟨hdoc, hpast, hfut, hsel⟩
  · split
    · split
      · exact ⟨hdoc, hpast, hfut, hsel⟩
      · exact ⟨hdoc, hpast, hfut, hsel⟩
      · refine ⟨?_, ?_, ?_, hsel⟩
        · exact BlocksOk_append_singleton_fresh _ _ _ rfl
            (BlocksOk_updateFirst _ _ _ _ (fun b => rfl) hdoc)
        · exact fun snap hs => BlocksOk_mono _ _ _ (Nat.le_succ _) (hpast snap hs)
        · exact fun snap hs => BlocksOk_mono _ _ _ (Nat.le_succ _) (hfut snap hs)
    · exact ⟨hdoc, hpast, hfut, hsel⟩

theorem Inv_addBlockToTab (tid tab : Nat) (ty : BlockType) (content : String)
    (props : Props) (now : Nat) (s : EditorState) (h : Inv s) :
    Inv (addBlockToTab tid tab ty content props now s) := by
  have h' := Inv_saveToHistory now s h
  obtain ⟨hdoc, hpast, hfut, hsel⟩ := h'
  simp only [addBlockToTab]
  split
  · exact ⟨hdoc, hpast, hfut, hsel⟩
  · split
    · refine ⟨?_, ?_, ?_, hsel⟩
      · exact BlocksOk_append_singleton_fresh _ _ _ rfl
          (BlocksOk_updateFirst _ _ _ _ (fun b => rfl) hdoc)
      · exact fun snap hs => BlocksOk_mono _ _ _ (Nat.le_succ _) (hpast snap hs)
      · exact fun snap hs => BlocksOk_mono _ _ _ (Nat.le_succ _) (hfut snap hs)
    · exact ⟨hdoc, hpast, hfut, hsel⟩

theorem buildBlocks_ids (specs : List (BlockType × String × Props)) (n : Nat) :
    blockIds (buildBlocks specs n).1 = List.range' n specs.length
    ∧ (buildBlocks specs n).2 = n + specs.length := by
  induction specs generalizing n with
  | nil => exact ⟨rfl, rfl⟩
  | cons sp rest ih =>
      obtain ⟨ty, content, props⟩ := sp
      obtain ⟨ih1, ih2⟩ := ih (n + 1)
      constructor
      · simp only [buildBlocks, blockIds, List.map_cons, List.length_cons,
          List.range'_succ]
        exact congrArg (List.cons n) ih1
      · simp only [buildBlocks, List.length_cons, ih2]
        omega

theorem BlocksOk_buildBlocks_append (specs : List (BlockType × String × Props))
    (n : Nat) (bs : List Block) (h : BlocksOk n bs) :
    BlocksOk (buildBlocks specs n).2 ((buildBlocks specs n).1 ++ bs) := by
  obtain ⟨hids, hn2⟩ := buildBlocks_ids specs n
  have hids' : List.map Block.id (buildBlocks specs n).1
      = List.range' n specs.length := hids
  refine ⟨?_, ?_, ?_⟩
  · intro hnil
    rw [List.append_eq_nil] at hnil
    exact h.1 hnil.2
  · show (blockIds ((buildBlocks specs n).1 ++ bs)).Nodup
    unfold blockIds
    rw [List.map_append, hids']
    refine (List.nodup_append).mpr ⟨List.nodup_range' n specs.length, h.2.1, ?_⟩
    intro x hx hxbs
    have hge : n ≤ x := (List.mem_range'_1.mp hx).1
    obtain ⟨c, hc, hcb⟩ := List.mem_map.mp hxbs
    have : x < n := hcb ▸ h.2.2 c hc
    omega
  · intro b hb
    rw [hn2]
    rcases List.mem_append.mp hb with hm | hm
    · have hmm : b.id ∈ List.range' n specs.length :=
        hids' ▸ List.mem_map_of_mem Block.id hm
      exact (List.mem_range'_1.mp hmm).2
    · have := h.2.2 b hm
      omega

theorem Inv_insertBlocksAtPosition (aid : Option Nat)
    (specs : List (BlockType × String × Props)) (now : Nat) (s : EditorState)
    (h : Inv s) : Inv (insertBlocksAtPosition aid specs now s) := by
  obtain ⟨hdoc, hpast, hfut, hsel⟩ := h
  simp only [insertBlocksAtPosition]
  split
  · exact ⟨hdoc, hpast, hfut, hsel⟩
  · rcases hbb : buildBlocks specs s.nextId with ⟨newBlocks, nid⟩
    have hOk := BlocksOk_buildBlocks_append specs s.nextId s.document.blocks hdoc
    have hle : s.nextId ≤ (buildBlocks specs s.nextId).2 := by
      rw [(buildBlocks_ids specs s.nextId).2]
      omega
    rw [hbb] at hOk hle
    simp only [hbb]
    split
    · refine ⟨?_, ?_, ?_, hsel⟩
      · exact BlocksOk_of_perm _ _ _ (spliceInsertAll_perm _ _ _) hOk
      · exact fun snap hs => BlocksOk_mono _ _ _ hle (hpast snap hs)
      · exact fun snap hs => BlocksOk_mono _ _ _ hle (hfut snap hs)
    · refine ⟨?_, ?_, ?_, hsel⟩
      · exact BlocksOk_of_perm _ _ _ List.perm_append_comm hOk
      · exact fun snap hs => BlocksOk_mono _ _ _ hle (hpast snap hs)
      · exact fun snap hs => BlocksOk_mono _ _ _ hle (hfut snap hs)



theorem Inv_applyCommand (now : Nat) (c : Command) (s : EditorState)
    (h : Inv s) : Inv (applyCommand now c s) := by
  cases c with
  | addBlockAfter a ty content => exact Inv_addBlockAfter a ty content now s h
  | updateBlockContent a content => exact Inv_updateBlockContent a content now s h
  | updateBlockProperties a patch => exact Inv_updateBlockProperties a patch now s h
  | deleteBlock a => exact Inv_deleteBlock a now s h
  | splitBlock a k => exact Inv_splitBlock a k now s h
  | mergeWithPreviousBlock a => exact Inv_mergeWithPreviousBlock a now s h
  | convertBlockType a ty c? => exact Inv_convertBlockType a ty c? now s h
  | moveBlock a t => exact Inv_moveBlock a t now s h
  | duplicateBlock a => exact Inv_duplicateBlock a now s h
  | indentBlock a => exact Inv_indentBlock a now s h
  | outdentBlock a => exact Inv_outdentBlock a now s h
  | addBlockToColumn cid idx ty content props =>
      exact Inv_addBlockToColumn cid idx ty content props now s h
  | addBlockToTab tid tab ty content props =>
      exact Inv_addBlockToTab tid tab ty content props now s h
  | insertBlocksAtPosition a specs =>
      exact Inv_insertBlocksAtPosition a specs now s h
  | deleteSelectedBlocks => exact Inv_deleteSelectedBlocks now s h
  | cycleSelection => exact Inv_cycleSelection s h
  | clearSelection => exact Inv_clearSelection s h
  | setActiveBlock a => exact Inv_setActiveBlock a s h
  | undo => exact Inv_undo now s h
  | redo => exact Inv_redo now s h
  | saveToHistory => exact Inv_saveToHistory now s h

theorem Inv_initState (now : Nat) : Inv (initState now) := by
  refine ⟨⟨by simp [initState, createDocument], ?_, ?_⟩, ?_, ?_, fun _ => rfl⟩
  · simp [initState, createDocument, blockIds, createBlock]
  · intro b hb
    simp only [initState, createDocument] at hb
    rw [List.mem_singleton.mp hb]
    simp [createBlock, initState]
  · intro snap hs
    simp [initState] at hs
  · intro snap hs
    simp [initState] at hs

theorem Inv_run (cmds : List (Nat × Command)) (s : EditorState) (h : Inv s) :
    Inv (run cmds s) := by
  induction cmds generalizing s with
  | nil => exact h
  | cons tc rest ih => exact ih _ (Inv_applyCommand tc.1 tc.2 s h)

/-- C1: after every timed command sequence on the freshly created store state,
the document keeps at least one block; and when `deleteBlock` removes the
single remaining block, or `deleteSelectedBlocks` removes every block, a
fresh empty paragraph takes their place and becomes the active block. -/
theorem blocks_never_empty (cmds : List (Nat × Command)) (now₀ : Nat)
    (s : EditorState) (b : Block) (bid now : Nat) :
    1 ≤ (run cmds (initState now₀)).document.blocks.length
    ∧ (s.document.blocks = [b] → b.id = bid →
        (applyCommand now (.deleteBlock bid) s).document.blocks
            = [emptyParagraph s.nextId]
        ∧ (applyCommand now (.deleteBlock bid) s).activeBlockId
            = some s.nextId)
    ∧ (s.selectedBlockIds ≠ [] →
        (∀ x ∈ s.document.blocks, x.id ∈ s.selectedBlockIds) →
        (applyCommand now .deleteSelectedBlocks s).document.blocks
            = [emptyParagraph s.nextId]
        ∧ (applyCommand now .deleteSelectedBlocks s).activeBlockId
            = some s.nextId) := by
  refine ⟨?_, ?_, ?_⟩
  · rw [Nat.one_le_iff_ne_zero]
    intro hlen
    exact (Inv_run cmds _ (Inv_initState now₀)).1.1
      (List.eq_nil_of_length_eq_zero hlen)
  · intro hblocks hid
    have hfind : findBlockIndex [b] bid = some 0 := by
      unfold findBlockIndex
      rw [List.findIdx?_cons]
      simp [hid]
    simp [applyCommand, deleteBlock, saveToHistory, hblocks, hfind,
      spliceRemove, emptyParagraph]
  · intro hne hall
    have hfil : s.document.blocks.filter
        (fun x => ¬ s.selectedBlockIds.contains x.id) = [] := by
      rw [List.filter_eq_nil_iff]
      intro x hx
      simp [hall x hx]
    simp [applyCommand, deleteSelectedBlocks, if_neg hne, saveToHistory, hfil,
      emptyParagraph]
    rw [if_pos hall]
    simp

/-- Witness for C1: delete the only block of the fresh document; delete all
selected blocks of `exSelState`. -/
theorem blocks_never_empty_witness :
    (initState 0).document.blocks = [createBlock 1 .paragraph "" 0] ∧
    (createBlock 1 .paragraph "" 0).id = 1 ∧
    exSelState.selectedBlockIds ≠ [] ∧
    (∀ x ∈ exSelState.document.blocks, x.id ∈ exSelState.selectedBlockIds) ∧
    (1 ≤ (run [(1, .deleteBlock 1)] (initState 0)).document.blocks.length
      ∧ ((initState 0).document.blocks = [createBlock 1 .paragraph "" 0] →
          (createBlock 1 .paragraph "" 0).id = 1 →
          (applyCommand 5 (.deleteBlock 1) (initState 0)).document.blocks
              = [emptyParagraph (initState 0).nextId]
          ∧ (applyCommand 5 (.deleteBlock 1) (initState 0)).activeBlockId
              = some (initState 0).nextId))
    ∧ (exSelState.selectedBlockIds ≠ [] →
        (∀ x ∈ exSelState.document.blocks, x.id ∈ exSelState.selectedBlockIds) →
        (applyCommand 5 .deleteSelectedBlocks exSelState).document.blocks
            = [emptyParagraph exSelState.nextId]
        ∧ (applyCommand 5 .deleteSelectedBlocks exSelState).activeBlockId
            = some exSelState.nextId) := by
  refine ⟨by decide, by decide, by decide, by decide, ?_, ?_⟩
  · exact ⟨(blocks_never_empty [(1, .deleteBlock 1)] 0 (initState 0)
        (createBlock 1 .paragraph "" 0) 1 5).1,
      (blocks_never_empty [(1, .deleteBlock 1)] 0 (initState 0)
        (createBlock 1 .paragraph "" 0) 1 5).2.1⟩
  · exact (blocks_never_empty [] 0 exSelState
      (createBlock 1 .paragraph "" 0) 1 5).2.2

/-- C2: after every timed command sequence on the freshly created store state,
the ids of the document blocks are pairwise distinct. -/
theorem block_ids_nodup (cmds : List (Nat × Command)) (now₀ : Nat) :
    (blockIds (run cmds (initState now₀)).document.blocks).Nodup :=
  (Inv_run cmds _ (Inv_initState now₀)).1.2.1


end Editor
